import Mathlib

/-! HELICS `MessageFederateManager`: a shallow embedding.

The development follows `src/helics/application_api/MessageFederateManager.cpp`.
The manager is a record of its member variables, every member function is a
function from states to states (and results), and the hosting core the manager
calls into is a record of the data those calls read and write.

Conventions of the embedding:

* `Time` is the fixed-point count of nanoseconds (`count_time<9>`), an `Int`.
* Identifiers (`endpoint_id_t`, sizes) are natural numbers; the tables stay far
  below the 2^31 entries at which the 32-bit identifier casts would wrap.
* An access the C++ leaves undefined (indexing a vector past its end) is the
  explicit result `Fault.undefined_behaviour`; `throw std::invalid_argument`
  is `Fault.invalid_argument`.
* User callbacks are named by tokens; invoking one appends a record of the call
  (with the queues the callback could observe) to `callbackLog`. A callback
  is taken not to call back into the manager while `updateTime` runs.
* `disconnect` (which nulls `coreObject`) is outside the embedding: the core
  pointer is always valid here.
* `Reachable` collects the states the manager reaches from its constructor,
  `Started` those in which the startup-to-initialize transition has run after
  the last endpoint registration.
* The guarded cell of `libguarded/ordered_guarded.hpp` is embedded with its
  lock as one thread sees it; a call that would wait for the lock, or that
  cannot be instantiated, is `none`.
-/

namespace helics


/-- Simulation time, `timeRepresentation<count_time<9>>`: a count of nanoseconds. -/
abbrev Time := Int

/-- `Core::handle_id_t`, the global handle the core assigns. -/
abbrev handle_id_t := Int

/-- `Core::federate_id_t`. -/
abbrev federate_id_t := Int

/-- `endpoint_id_t`, the local endpoint index (its `value ()`). -/
abbrev endpoint_id_t := Nat

/-- A token naming a user function `std::function<void(endpoint_id_t, Time)>`. -/
abbrev Callback := Nat

/-- The `Message` record: the fields `updateTime` writes. -/
structure Message where
  time : Time
  data : String
  dest : String
  source : String
  original_source : String
deriving DecidableEq

/-- Outcome of a member function that does not return normally. -/
inductive Fault where
  | invalid_argument (what : String)
  | undefined_behaviour
deriving DecidableEq

/-- Modelled from the spec: the `endpoint_info` record of
`MessageFederateManager.hpp` (not among the sources). The insert call in
`registerEndpoint` fixes the constructor arguments `(name, type, id, handle)`;
the callback index of a fresh record is negative ("no callback"). -/
structure endpoint_info where
  name : String
  type : String
  id : endpoint_id_t
  handle : handle_id_t
  callbackIndex : Int
deriving DecidableEq

/-- Modelled from the spec: the container `DualMappedVector` behind
`local_endpoints` (its header is not among the sources): a vector of records
that can also be searched by either of two keys. The only insertion in the
manager passes the record's own name and handle as the two keys, so a search
returns the first record stored under the key (a key already present keeps its
first record). -/
structure DualMappedVector where
  dataStorage : List endpoint_info
deriving DecidableEq

/-- The call `size ()`. -/
def DualMappedVector.size (d : DualMappedVector) : Nat := d.dataStorage.length

/-- The call `find (name)`; `none` is `end ()`. -/
def DualMappedVector.findName (d : DualMappedVector) (name : String) : Option endpoint_info :=
  d.dataStorage.find? (fun e => e.name == name)

/-- The call `find (handle)`; `none` is `end ()`. -/
def DualMappedVector.findHandle (d : DualMappedVector) (h : handle_id_t) : Option endpoint_info :=
  d.dataStorage.find? (fun e => e.handle == h)

/-- The call `insert (name, handle, name, type, id, handle)`: the record is
appended to the vector and becomes searchable under its name and handle. -/
def DualMappedVector.insert (d : DualMappedVector) (searchValue1 : String)
    (searchValue2 : handle_id_t) (type : String) (id : endpoint_id_t) : DualMappedVector :=
  { dataStorage := d.dataStorage ++ [⟨searchValue1, type, id, searchValue2, -1⟩] }

/-- A call the manager made on the core. -/
inductive CoreCall where
  | registerEndpoint (fed : federate_id_t) (name type : String)
  | registerSubscription (fed : federate_id_t) (name type : String)
  | registerFrequentCommunicationsPair (source dest : String)
  | send (sourceHandle : handle_id_t) (dest : String) (data : String)
  | sendEvent (time : Time) (sourceHandle : handle_id_t) (dest : String) (data : String)
  | sendMessage (sourceHandle : handle_id_t) (message : Message)
deriving DecidableEq

/-- Modelled from the spec: the hosting core (`Core.hpp` and its implementation
are not among the sources), reduced to what the manager's calls read and write.
`nextHandle` is the handle the next registration returns (handles come from a
counter); `pendingAny` is the any-endpoint buffer in the order `receiveAny`
yields it, each message with its destination handle; `countAny` is what
`receiveCountAny` reports (one less after each message taken); `valueUpdates` and `values` answer `getValueUpdates`
and `getValue`; `timeLookAhead` is the value of `setLookAhead`; `calls` logs
the registrations and sends the manager made, oldest first. -/
structure Core where
  nextHandle : handle_id_t
  pendingAny : List (handle_id_t × Message)
  countAny : Nat
  valueUpdates : List handle_id_t
  values : List (handle_id_t × String)
  timeLookAhead : Time
  calls : List CoreCall
deriving DecidableEq

/-- The core call `registerEndpoint (fedID, name, type)`. -/
def Core.registerEndpoint (c : Core) (fed : federate_id_t) (name type : String) :
    handle_id_t × Core :=
  (c.nextHandle,
   { c with nextHandle := c.nextHandle + 1,
            calls := c.calls ++ [CoreCall.registerEndpoint fed name type] })

/-- The core call `registerSubscription (fedID, name, type, "", optional)`. -/
def Core.registerSubscription (c : Core) (fed : federate_id_t) (name type : String) :
    handle_id_t × Core :=
  (c.nextHandle,
   { c with nextHandle := c.nextHandle + 1,
            calls := c.calls ++ [CoreCall.registerSubscription fed name type] })

/-- The core call `registerFrequentCommunicationsPair (source, dest)`. -/
def Core.registerFrequentCommunicationsPair (c : Core) (source dest : String) : Core :=
  { c with calls := c.calls ++ [CoreCall.registerFrequentCommunicationsPair source dest] }

/-- The core call `send (handle, dest, data, size)`. -/
def Core.send (c : Core) (h : handle_id_t) (dest data : String) : Core :=
  { c with calls := c.calls ++ [CoreCall.send h dest data] }

/-- The core call `sendEvent (time, handle, dest, data, size)`. -/
def Core.sendEvent (c : Core) (t : Time) (h : handle_id_t) (dest data : String) : Core :=
  { c with calls := c.calls ++ [CoreCall.sendEvent t h dest data] }

/-- The core call `sendMessage (handle, message)`. -/
def Core.sendMessage (c : Core) (h : handle_id_t) (m : Message) : Core :=
  { c with calls := c.calls ++ [CoreCall.sendMessage h m] }

/-- The core call `receiveCountAny (fedID)`. -/
def Core.receiveCountAny (c : Core) (_fed : federate_id_t) : Nat := c.countAny

/-- The core call `receiveAny (fedID, endpoint_id)`: the oldest pending message
with its destination handle, or a null message when nothing is pending. -/
def Core.receiveAny (c : Core) (_fed : federate_id_t) : Option (handle_id_t × Message) × Core :=
  match c.pendingAny with
  | [] => (none, c)
  | hm :: rest => (some hm, { c with pendingAny := rest, countAny := c.countAny - 1 })

/-- The core call `getValueUpdates (fedID)`. -/
def Core.getValueUpdates (c : Core) (_fed : federate_id_t) : List handle_id_t := c.valueUpdates

/-- The core call `getValue (handle)`: the current bytes of the handle (empty
when it was never set). -/
def Core.getValue (c : Core) (h : handle_id_t) : String :=
  match c.values.lookup h with
  | some v => v
  | none => ""

/-- One invocation of a user callback: which function, its two arguments, and
the inbound queues as they stood when it ran. -/
structure CallbackCall where
  callback : Callback
  endpoint : endpoint_id_t
  time : Time
  queues : List (List Message)
deriving DecidableEq

/-- The member variables of `MessageFederateManager`. -/
structure MessageFederateManager where
  coreObject : Core
  fedID : federate_id_t
  CurrentTime : Time
  local_endpoints : DualMappedVector
  messageQueues : List (List Message)
  callbacks : List Callback
  allCallbackIndex : Int
  subHandleLookup : List (handle_id_t × (endpoint_id_t × String))
  hasSubscriptions : Bool
  messageOrder : List Nat
  callbackLog : List CallbackCall
deriving DecidableEq

/-- The constructor `MessageFederateManager (coreOb, id)`: no endpoints, no
queues, no callbacks (`allCallbackIndex = -1`), time zero. -/
def MessageFederateManager.new (coreOb : Core) (id : federate_id_t) : MessageFederateManager :=
  { coreObject := coreOb, fedID := id, CurrentTime := 0,
    local_endpoints := ⟨[]⟩, messageQueues := [], callbacks := [],
    allCallbackIndex := -1, subHandleLookup := [], hasSubscriptions := false,
    messageOrder := [], callbackLog := [] }

deriving instance DecidableEq for Except

/-- Indexing a vector: past the end the behaviour is undefined. -/
def index {α : Type} (xs : List α) (i : Nat) : Except Fault α :=
  match xs[i]? with
  | some x => Except.ok x
  | none => Except.error Fault.undefined_behaviour

/-- `registerEndpoint (name, type)` (lines 26-34). -/
def registerEndpoint (s : MessageFederateManager) (name type : String) :
    endpoint_id_t × MessageFederateManager :=
  let r := s.coreObject.registerEndpoint s.fedID name type
  let handle := r.1
  let id : endpoint_id_t := s.local_endpoints.size
  (id, { s with coreObject := r.2,
                local_endpoints := s.local_endpoints.insert name handle type id })

/-- `getEndpointName (id)` (lines 257-261); `nullStr` is the empty string. -/
def getEndpointName (s : MessageFederateManager) (id : endpoint_id_t) : String :=
  if id < s.local_endpoints.size then
    match s.local_endpoints.dataStorage[id]? with
    | some e => e.name
    | none => ""
  else ""

/-- `getEndpointId (name)` (lines 263-268). -/
def getEndpointId (s : MessageFederateManager) (name : String) : endpoint_id_t :=
  match s.local_endpoints.findName name with
  | some sub => sub.id
  | none => 0

/-- `getEndpointType (id)` (lines 270-274). -/
def getEndpointType (s : MessageFederateManager) (id : endpoint_id_t) : String :=
  if id < s.local_endpoints.size then
    match s.local_endpoints.dataStorage[id]? with
    | some e => e.type
    | none => ""
  else ""

/-- `getEndpointCount ()` (lines 276-280). -/
def getEndpointCount (s : MessageFederateManager) : Int :=
  (s.local_endpoints.size : Int)

/-- `registerKnownCommunicationPath (localEndpoint, remoteEndpoint)` (lines 36-44). -/
def registerKnownCommunicationPath (s : MessageFederateManager) (localEndpoint : endpoint_id_t)
    (remoteEndpoint : String) : Except Fault MessageFederateManager :=
  if localEndpoint < s.local_endpoints.size then
    match index s.local_endpoints.dataStorage localEndpoint with
    | Except.ok e =>
      Except.ok { s with coreObject :=
        s.coreObject.registerFrequentCommunicationsPair e.name remoteEndpoint }
    | Except.error f => Except.error f
  else Except.ok s

/-- The call `emplace (key, value)` on the map `subHandleLookup`: a key that is
already present keeps its value. -/
def mapEmplace {κ ν : Type} [DecidableEq κ] (m : List (κ × ν)) (k : κ) (v : ν) : List (κ × ν) :=
  match m.lookup k with
  | some _ => m
  | none => m ++ [(k, v)]

/-- `subscribe (endpoint, name, type)` (lines 46-59). -/
def subscribe (s : MessageFederateManager) (endpoint : endpoint_id_t) (name type : String) :
    Except Fault MessageFederateManager :=
  if endpoint < s.local_endpoints.size then
    let r := s.coreObject.registerSubscription s.fedID name type
    Except.ok { s with coreObject := r.2,
                       subHandleLookup := mapEmplace s.subHandleLookup r.1 (endpoint, name),
                       hasSubscriptions := true }
  else Except.error (Fault.invalid_argument "endpoint id is invalid")

/-- `hasMessage ()` (lines 61-71). -/
def hasMessage (s : MessageFederateManager) : Bool :=
  s.messageQueues.any (fun mq => !mq.isEmpty)

/-- `hasMessage (id)` (lines 73-76). -/
def hasMessage_id (s : MessageFederateManager) (id : endpoint_id_t) : Except Fault Bool :=
  if id < s.local_endpoints.size then
    match index s.messageQueues id with
    | Except.ok mq => Except.ok (!mq.isEmpty)
    | Except.error f => Except.error f
  else Except.ok false

/-- `receiveCount (id)` (lines 81-84). -/
def receiveCount_id (s : MessageFederateManager) (id : endpoint_id_t) : Except Fault Nat :=
  if id < s.local_endpoints.size then
    match index s.messageQueues id with
    | Except.ok mq => Except.ok mq.length
    | Except.error f => Except.error f
  else Except.ok 0

/-- `receiveCount ()` (lines 90-98). -/
def receiveCount (s : MessageFederateManager) : Nat :=
  s.messageQueues.foldl (fun sz mq => sz + mq.length) 0

/-- `getMessage (endpoint)` (lines 100-111): pop the head of the endpoint's
queue; a null pointer (`none`) when the queue is empty or the id is invalid. -/
def getMessage_id (s : MessageFederateManager) (endpoint : endpoint_id_t) :
    Except Fault (Option Message × MessageFederateManager) :=
  if endpoint < s.local_endpoints.size then
    match index s.messageQueues endpoint with
    | Except.ok (m :: rest) =>
      Except.ok (some m, { s with messageQueues := s.messageQueues.set endpoint rest })
    | Except.ok [] => Except.ok (none, s)
    | Except.error f => Except.error f
  else Except.ok (none, s)

/-- The loop of `getMessage ()` over the queues: pop the first non-empty one. -/
def getMessageScan : List (List Message) → Option (Message × List (List Message))
  | [] => none
  | (m :: rest) :: mqs => some (m, rest :: mqs)
  | [] :: mqs =>
    match getMessageScan mqs with
    | some (m, mqs1) => some (m, [] :: mqs1)
    | none => none

/-- `getMessage ()` (lines 113-128). -/
def getMessage (s : MessageFederateManager) : Option Message × MessageFederateManager :=
  match getMessageScan s.messageQueues with
  | some (m, mqs) => (some m, { s with messageQueues := mqs })
  | none => (none, s)

/-- `sendMessage (source, dest, message)` (lines 130-140). -/
def sendMessage (s : MessageFederateManager) (source : endpoint_id_t) (dest : String)
    (message : String) : Except Fault MessageFederateManager :=
  if source < s.local_endpoints.size then
    match index s.local_endpoints.dataStorage source with
    | Except.ok e => Except.ok { s with coreObject := s.coreObject.send e.handle dest message }
    | Except.error f => Except.error f
  else Except.error (Fault.invalid_argument "endpoint id is invalid")

/-- `sendMessage (source, dest, message, sendTime)` (lines 142-156). -/
def sendMessage_time (s : MessageFederateManager) (source : endpoint_id_t) (dest : String)
    (message : String) (sendTime : Time) : Except Fault MessageFederateManager :=
  if source < s.local_endpoints.size then
    match index s.local_endpoints.dataStorage source with
    | Except.ok e =>
      Except.ok { s with coreObject := s.coreObject.sendEvent sendTime e.handle dest message }
    | Except.error f => Except.error f
  else Except.error (Fault.invalid_argument "endpoint id is invalid")

/-- `sendMessage (source, message)` with a `Message` object (lines 158-168). -/
def sendMessage_message (s : MessageFederateManager) (source : endpoint_id_t)
    (message : Message) : Except Fault MessageFederateManager :=
  if source < s.local_endpoints.size then
    match index s.local_endpoints.dataStorage source with
    | Except.ok e => Except.ok { s with coreObject := s.coreObject.sendMessage e.handle message }
    | Except.error f => Except.error f
  else Except.error (Fault.invalid_argument "endpoint id is invalid")

/-- The calls `messageQueues[i].emplace (m)` and `messageQueues[i].push (m)`:
append at the back of queue `i`. -/
def enqueue (s : MessageFederateManager) (i : Nat) (m : Message) :
    Except Fault MessageFederateManager :=
  match index s.messageQueues i with
  | Except.ok mq => Except.ok { s with messageQueues := s.messageQueues.set i (mq ++ [m]) }
  | Except.error f => Except.error f

/-- Running the user function `cb (id, t)`, the endpoint lock released. -/
def invoke (s : MessageFederateManager) (cb : Callback) (id : endpoint_id_t) (t : Time) :
    MessageFederateManager :=
  { s with callbackLog := s.callbackLog ++ [⟨cb, id, t, s.messageQueues⟩] }

/-- The callback dispatch after a message was queued (lines 192-205 and 227-242):
the endpoint's own callback when it has one (called with time `tOwn`), else the
all-endpoints callback when one is registered (called with time `tAll`). -/
def dispatch (s : MessageFederateManager) (localEndpointIndex : Nat) (id : endpoint_id_t)
    (tOwn tAll : Time) : Except Fault MessageFederateManager :=
  match index s.local_endpoints.dataStorage localEndpointIndex with
  | Except.error f => Except.error f
  | Except.ok e =>
    if 0 ≤ e.callbackIndex then
      match index s.callbacks e.callbackIndex.toNat with
      | Except.ok cb => Except.ok (invoke s cb id tOwn)
      | Except.error f => Except.error f
    else if 0 ≤ s.allCallbackIndex then
      match index s.callbacks s.allCallbackIndex.toNat with
      | Except.ok ac => Except.ok (invoke s ac id tAll)
      | Except.error f => Except.error f
    else Except.ok s

/-- The message loop of `updateTime` (lines 177-207), `epCount` iterations at most. -/
def drainLoop : Nat → MessageFederateManager → Except Fault MessageFederateManager
  | 0, s => Except.ok s
  | epCount + 1, s =>
    match s.coreObject.receiveAny s.fedID with
    | (none, core) => Except.ok { s with coreObject := core }
    | (some (endpoint_id, message), core) =>
      let s1 := { s with coreObject := core }
      match s1.local_endpoints.findHandle endpoint_id with
      | none => drainLoop epCount s1
      | some fid =>
        let localEndpointIndex := fid.id
        match enqueue s1 localEndpointIndex message with
        | Except.error f => Except.error f
        | Except.ok s2 =>
          match dispatch s2 localEndpointIndex fid.id s2.CurrentTime s2.CurrentTime with
          | Except.error f => Except.error f
          | Except.ok s3 => drainLoop epCount s3

/-- The subscription loop of `updateTime` (lines 211-244) over the updated handles. -/
def valueLoop (newTime : Time) :
    List handle_id_t → MessageFederateManager → Except Fault MessageFederateManager
  | [], s => Except.ok s
  | handle :: handles, s =>
    match s.subHandleLookup.lookup handle with
    | none => valueLoop newTime handles s
    | some sfnd =>
      let localEndpointIndex := sfnd.1
      match index s.local_endpoints.dataStorage localEndpointIndex with
      | Except.error f => Except.error f
      | Except.ok e =>
        let mv : Message :=
          { source := sfnd.2, dest := e.name, original_source := sfnd.2,
            data := s.coreObject.getValue handle, time := s.CurrentTime }
        match enqueue s localEndpointIndex mv with
        | Except.error f => Except.error f
        | Except.ok s2 =>
          match dispatch s2 localEndpointIndex sfnd.1 newTime s2.CurrentTime with
          | Except.error f => Except.error f
          | Except.ok s3 => valueLoop newTime handles s3

/-- `updateTime (newTime, oldTime)` (lines 170-246). -/
def updateTime (s : MessageFederateManager) (newTime : Time) (_oldTime : Time) :
    Except Fault MessageFederateManager :=
  let s0 := { s with CurrentTime := newTime }
  let epCount := s0.coreObject.receiveCountAny s0.fedID
  match drainLoop epCount s0 with
  | Except.error f => Except.error f
  | Except.ok s1 =>
    if s1.hasSubscriptions then
      valueLoop newTime (s1.coreObject.getValueUpdates s1.fedID) s1
    else Except.ok s1

/-- The call `resize (n)` on a vector of queues: cut to `n`, or fill up with
empty queues. -/
def resize (mqs : List (List Message)) (n : Nat) : List (List Message) :=
  mqs.take n ++ List.replicate (n - mqs.length) []

/-- `startupToInitializeStateTransition ()` (lines 248-251). -/
def startupToInitializeStateTransition (s : MessageFederateManager) : MessageFederateManager :=
  { s with messageQueues := resize s.messageQueues s.local_endpoints.size }

/-- The assignment `local_endpoints[i].callbackIndex = ind`. -/
def setCallbackIndex (d : DualMappedVector) (i : Nat) (ind : Int) : DualMappedVector :=
  match d.dataStorage[i]? with
  | some e => { dataStorage := d.dataStorage.set i { e with callbackIndex := ind } }
  | none => d

/-- `registerCallback (callback)` for all endpoints (lines 282-294). -/
def registerCallback (s : MessageFederateManager) (callback : Callback) :
    Except Fault MessageFederateManager :=
  if s.allCallbackIndex < 0 then
    Except.ok { s with allCallbackIndex := (s.callbacks.length : Int),
                       callbacks := s.callbacks ++ [callback] }
  else if s.allCallbackIndex.toNat < s.callbacks.length then
    Except.ok { s with callbacks := s.callbacks.set s.allCallbackIndex.toNat callback }
  else Except.error Fault.undefined_behaviour

/-- `registerCallback (id, callback)` for one endpoint (lines 296-308). -/
def registerCallback_id (s : MessageFederateManager) (id : endpoint_id_t) (callback : Callback) :
    Except Fault MessageFederateManager :=
  if id < s.local_endpoints.size then
    Except.ok { s with local_endpoints :=
                         setCallbackIndex s.local_endpoints id (s.callbacks.length : Int),
                       callbacks := s.callbacks ++ [callback] }
  else Except.error (Fault.invalid_argument "endpoint id is invalid")

/-- `registerCallback (ids, callback)` for a list of endpoints (lines 310-324). -/
def registerCallback_ids (s : MessageFederateManager) (ids : List endpoint_id_t)
    (callback : Callback) : MessageFederateManager :=
  let ind : Int := (s.callbacks.length : Int)
  { s with callbacks := s.callbacks ++ [callback],
           local_endpoints := ids.foldl
             (fun d id => if id < d.size then setCallbackIndex d id ind else d)
             s.local_endpoints }

/-- The reverse scan of `removeOrderedMessage` (lines 336-343): the position of
the first element equal to `index` met when walking from position `k - 1` down
to position 0. -/
def reverseScan (v : List Nat) (index : Nat) : Nat → Option Nat
  | 0 => none
  | k + 1 => if v[k]? = some index then some k else reverseScan v index k

/-- `removeOrderedMessage (index)` (lines 326-345). `back ()` of an empty vector
is undefined. The scan starts at `rbegin () + 1`, the element before the back;
on a match at position `j` the call `erase (ri.base ())` removes the element
the base iterator points at, which is the one at position `j + 1`. -/
def removeOrderedMessage (s : MessageFederateManager) (index : Nat) :
    Except Fault MessageFederateManager :=
  match s.messageOrder.getLast? with
  | none => Except.error Fault.undefined_behaviour
  | some back =>
    if index = back then Except.ok { s with messageOrder := s.messageOrder.dropLast }
    else
      match reverseScan s.messageOrder index (s.messageOrder.length - 1) with
      | some j => Except.ok { s with messageOrder := s.messageOrder.eraseIdx (j + 1) }
      | none => Except.ok s

/-- A core with nothing pending, whose next handle is 7. -/
def exampleCore : Core :=
  { nextHandle := 7, pendingAny := [], countAny := 0, valueUpdates := [], values := [],
    timeLookAhead := 0, calls := [] }

/-- A freshly constructed manager of federate 1 on `exampleCore`. -/
def exampleManager : MessageFederateManager := MessageFederateManager.new exampleCore 1

/-- The scenario of the look-ahead test: one endpoint (handle 7), look-ahead 2,
granted time 3. -/
def lookAheadManager : MessageFederateManager :=
  { (registerEndpoint
      (MessageFederateManager.new { exampleCore with timeLookAhead := 2 } 1) "src" "t").2 with
    CurrentTime := 3 }

/-- Every endpoint record carries its own index as id (what `registerEndpoint`
establishes). -/
def IdsDense (s : MessageFederateManager) : Prop :=
  s.local_endpoints.dataStorage.map (fun e => e.id) = List.range s.local_endpoints.size

/-- There is one inbound queue per endpoint (what
`startupToInitializeStateTransition` establishes). -/
def QueuesReady (s : MessageFederateManager) : Prop :=
  s.messageQueues.length = s.local_endpoints.size

/-- No callback index points past the callbacks list. -/
def CallbacksValid (s : MessageFederateManager) : Prop :=
  s.allCallbackIndex < (s.callbacks.length : Int) ∧
  ∀ e ∈ s.local_endpoints.dataStorage, e.callbackIndex < (s.callbacks.length : Int)

/-- Every subscription is linked to a registered endpoint (what the guard of
`subscribe` establishes). -/
def SubscriptionsValid (s : MessageFederateManager) : Prop :=
  ∀ p ∈ s.subHandleLookup, p.2.1 < s.local_endpoints.size

/-- The manager states in which `updateTime` runs: endpoints registered by
`registerEndpoint`, queues sized by `startupToInitializeStateTransition`,
callbacks and subscriptions registered through the manager. -/
def Initialized (s : MessageFederateManager) : Prop :=
  IdsDense s ∧ QueuesReady s ∧ CallbacksValid s ∧ SubscriptionsValid s

instance (s : MessageFederateManager) : Decidable (IdsDense s) := by
  unfold IdsDense; infer_instance

instance (s : MessageFederateManager) : Decidable (QueuesReady s) := by
  unfold QueuesReady; infer_instance

instance (s : MessageFederateManager) : Decidable (CallbacksValid s) := by
  unfold CallbacksValid; infer_instance

instance (s : MessageFederateManager) : Decidable (SubscriptionsValid s) := by
  unfold SubscriptionsValid; infer_instance

instance (s : MessageFederateManager) : Decidable (Initialized s) := by
  unfold Initialized; infer_instance

/-- The endpoints' global handles are pairwise different (the core hands out
each handle once). -/
def HandlesDistinct (s : MessageFederateManager) : Prop :=
  (s.local_endpoints.dataStorage.map (fun e => e.handle)).Nodup

instance (s : MessageFederateManager) : Decidable (HandlesDistinct s) := by
  unfold HandlesDistinct; infer_instance

/-- Whether `updateTime` routes a message with destination handle `h` to the
queue of local index `i`. -/
def routesTo (d : DualMappedVector) (i : Nat) (h : handle_id_t) : Bool :=
  match d.findHandle h with
  | some fid => fid.id == i
  | none => false

/-- The messages among `msgs` (each with its destination handle) that
`updateTime` routes to the queue of local index `i`, in their order. -/
def routed (d : DualMappedVector) (i : Nat) (msgs : List (handle_id_t × Message)) :
    List Message :=
  (msgs.filter (fun p => routesTo d i p.1)).map Prod.snd

/-- The pseudo-message `updateTime` builds at time `t` for an updated handle
that a subscription links to endpoint `i`; `none` for any other handle. -/
def synthesizedFor (s : MessageFederateManager) (t : Time) (i : Nat) (handle : handle_id_t) :
    Option Message :=
  match s.subHandleLookup.lookup handle with
  | none => none
  | some sfnd =>
    if sfnd.1 = i then
      match s.local_endpoints.dataStorage[sfnd.1]? with
      | some e =>
        some { source := sfnd.2, dest := e.name, original_source := sfnd.2,
               data := s.coreObject.getValue handle, time := t }
      | none => none
    else none

/-- The pseudo-messages for endpoint `i` over a list of updated handles. -/
def synthesized (s : MessageFederateManager) (t : Time) (i : Nat) (handles : List handle_id_t) :
    List Message :=
  handles.filterMap (synthesizedFor s t i)

/-- A queue is ordered by timestamp ascending within each source: of two queued
messages with the same source, the one nearer the head is not later. -/
def QueueOrdered (q : List Message) : Prop :=
  q.Pairwise (fun a b => a.source = b.source → a.time ≤ b.time)

instance (q : List Message) : Decidable (QueueOrdered q) := by
  unfold QueueOrdered; infer_instance

/-- The results of `k` successive calls `getMessage (endpoint)`, first call
first, and the manager after the last call. -/
def getMessages : Nat → MessageFederateManager → endpoint_id_t →
    Except Fault (List (Option Message) × MessageFederateManager)
  | 0, s, _ => Except.ok ([], s)
  | k + 1, s, endpoint =>
    match getMessage_id s endpoint with
    | Except.error f => Except.error f
    | Except.ok (r, s1) =>
      match getMessages k s1 endpoint with
      | Except.error f => Except.error f
      | Except.ok (rs, s2) => Except.ok (r :: rs, s2)

/-- An initialized manager: endpoint `"ep"` (handle 7) registered on the
example manager, then the startup-to-initialize transition. -/
def readyManager : MessageFederateManager :=
  startupToInitializeStateTransition (registerEndpoint exampleManager "ep" "t").2

/-- The initialized manager at granted time 5. -/
def timeFiveManager : MessageFederateManager :=
  { readyManager with CurrentTime := 5 }

/-- The initialized manager whose core holds one pending message for handle 7,
stamped with time 10. -/
def lateMessageManager : MessageFederateManager :=
  { readyManager with
    coreObject := { readyManager.coreObject with
      pendingAny := [(7, ⟨10, "x", "ep", "far", "far"⟩)], countAny := 1 } }

/-- The initialized manager whose core holds two pending messages for handle 7
from the same source, the first stamped 5, the second stamped 3. -/
def unorderedManager : MessageFederateManager :=
  { readyManager with
    coreObject := { readyManager.coreObject with
      pendingAny := [(7, ⟨5, "x", "ep", "a", "a"⟩), (7, ⟨3, "y", "ep", "a", "a"⟩)],
      countAny := 2 } }

/-- A message from source `"a"` to `"ep"`, stamped 1. -/
def pingFirst : Message := ⟨1, "x", "ep", "a", "a"⟩

/-- A message from source `"a"` to `"ep"`, stamped 2. -/
def pingSecond : Message := ⟨2, "y", "ep", "a", "a"⟩

/-- The initialized manager whose core holds two pending messages for handle 7
from the same source, stamped 1 and 2, and one message for an unknown handle. -/
def pingManager : MessageFederateManager :=
  { readyManager with
    coreObject := { readyManager.coreObject with
      pendingAny := [(7, pingFirst), (9, ⟨1, "z", "other", "a", "a"⟩), (7, pingSecond)],
      countAny := 3 } }

/-- The messages `receiveAny` yields for destination handle `h` during one
`updateTime`, in the order the core yields them: those among the first
`receiveCountAny` pending messages whose handle is `h`. -/
def drainedFor (c : Core) (h : handle_id_t) : List Message :=
  ((c.pendingAny.take c.countAny).filter (fun p => p.1 == h)).map Prod.snd

/-- The pseudo-messages one `updateTime (t, _)` builds for endpoint `i`: none
without subscriptions, else those of the core's updated handles. -/
def pseudoFor (s : MessageFederateManager) (t : Time) (i : Nat) : List Message :=
  if s.hasSubscriptions then synthesized s t i s.coreObject.valueUpdates else []

/-- The initialized manager with two messages waiting on the queue of
endpoint 0. -/
def queuedManager : MessageFederateManager :=
  { readyManager with messageQueues := [[pingFirst, pingSecond]] }

/-- Two endpoints `"a"` and `"b"` (handles 7 and 8), initialized, with nothing
on the queue of `"a"` and two messages on the queue of `"b"`. -/
def twoEndpointManager : MessageFederateManager :=
  { startupToInitializeStateTransition
      (registerEndpoint (registerEndpoint exampleManager "a" "t").2 "b" "t").2 with
    messageQueues := [[], [pingFirst, pingSecond]] }

/-- A manager whose pending-message-order list is `[1, 2, 3]`. -/
def orderManager : MessageFederateManager :=
  { exampleManager with messageOrder := [1, 2, 3] }

/-! ## The guarded cell of `libguarded/ordered_guarded.hpp` -/

/-- Modelled from the spec: the reader-writer lock `M` (`std::shared_timed_mutex`)
as one thread sees it: whether a writer holds it and how many readers hold it.
Writers are exclusive; readers may overlap. -/
structure SharedMutex where
  exclusive : Bool
  shared : Nat
deriving DecidableEq

/-- Taking the lock exclusively (`std::lock_guard<M>`); `none` when the call
would wait because the lock is held. -/
def SharedMutex.lock (m : SharedMutex) : Option SharedMutex :=
  if m.exclusive = false ∧ m.shared = 0 then some { m with exclusive := true } else none

/-- Releasing the exclusive lock (end of the `lock_guard` scope). -/
def SharedMutex.unlock (m : SharedMutex) : SharedMutex :=
  { m with exclusive := false }

/-- Taking the lock shared (`std::shared_lock<M>`); `none` when the call would
wait because a writer holds the lock. -/
def SharedMutex.lock_shared (m : SharedMutex) : Option SharedMutex :=
  if m.exclusive = false then some { m with shared := m.shared + 1 } else none

/-- Releasing a shared lock (end of the scope of a `shared_lock` or of a
shared handle). -/
def SharedMutex.unlock_shared (m : SharedMutex) : SharedMutex :=
  { m with shared := m.shared - 1 }

/-- The class `ordered_guarded<T, M>`: the protected object and its lock. A
member function yields `none` when the call gives no result: it would wait for
the lock, or it cannot be instantiated. -/
structure ordered_guarded (T : Type) where
  m_obj : T
  m_mutex : SharedMutex
deriving DecidableEq

/-- The constructor `ordered_guarded (data...)`: the object, lock free. -/
def ordered_guarded.new {T : Type} (data : T) : ordered_guarded T :=
  { m_obj := data, m_mutex := ⟨false, 0⟩ }

/-- `modify (func)` (lines 139-160): `func` runs on the object under the
exclusive lock; it yields a result and the object as it leaves it. -/
def ordered_guarded.modify {T R : Type} (c : ordered_guarded T) (func : T → R × T) :
    Option (R × ordered_guarded T) :=
  match c.m_mutex.lock with
  | none => none
  | some m1 => some ((func c.m_obj).1, { m_obj := (func c.m_obj).2, m_mutex := m1.unlock })

/-- `read (func)` (lines 162-181): `func` runs on the object under a shared
lock and its result is returned. -/
def ordered_guarded.read {T R : Type} (c : ordered_guarded T) (func : T → R) :
    Option (R × ordered_guarded T) :=
  match c.m_mutex.lock_shared with
  | none => none
  | some m1 => some (func c.m_obj, { c with m_mutex := m1.unlock_shared })

/-- Modelled from the spec: `lock_shared ()` (lines 183-187) returns a scoped
read handle (`shared_lock_handle`, not among the sources): the object it
points at, with the lock held shared until the handle goes out of scope. -/
def ordered_guarded.lock_shared {T : Type} (c : ordered_guarded T) :
    Option (T × ordered_guarded T) :=
  match c.m_mutex.lock_shared with
  | none => none
  | some m1 => some (c.m_obj, { c with m_mutex := m1 })

/-- The call `shared_lock ()` in the body of `load` (line 105). The class
declares `lock_shared`, `try_lock_shared`, `try_lock_shared_for` and
`try_lock_shared_until`; it declares nothing named `shared_lock`, and neither
does its namespace, so the call names nothing and yields no handle. -/
def ordered_guarded.shared_lock {T : Type} (_c : ordered_guarded T) :
    Option (T × ordered_guarded T) :=
  none

/-- `load ()` (lines 101-108) as written: the handle is what `shared_lock ()`
yields, the copy `newObj` is made from the object the handle points at, and
the handle is released on return. -/
def ordered_guarded.load {T : Type} (c : ordered_guarded T) : Option (T × ordered_guarded T) :=
  match c.shared_lock with
  | none => none
  | some (handle, c1) =>
    let newObj := handle
    some (newObj, { c1 with m_mutex := c1.m_mutex.unlock_shared })

/-- `store (newObj)` (lines 109-115): assign the object under the exclusive lock. -/
def ordered_guarded.store {T : Type} (c : ordered_guarded T) (newObj : T) :
    Option (ordered_guarded T) :=
  match c.m_mutex.lock with
  | none => none
  | some m1 => some { m_obj := newObj, m_mutex := m1.unlock }

/-- The callback due for a message put on the queue of endpoint `e`: the
endpoint's own callback when it has one, else the all-endpoints callback when
one is registered, else none. -/
def chosenCallback (s : MessageFederateManager) (e : Nat) : Option Callback :=
  match s.local_endpoints.dataStorage[e]? with
  | none => none
  | some ep =>
    if 0 ≤ ep.callbackIndex then s.callbacks[ep.callbackIndex.toNat]?
    else if 0 ≤ s.allCallbackIndex then s.callbacks[s.allCallbackIndex.toNat]?
    else none

/-- The messages the message loop of `updateTime` puts on queues when the core
yields `msgs`, in order, each with the local index of its endpoint. -/
def drainedEvents (d : DualMappedVector) (msgs : List (handle_id_t × Message)) :
    List (Nat × Message) :=
  msgs.filterMap (fun p =>
    match d.findHandle p.1 with
    | some fid => some (fid.id, p.2)
    | none => none)

/-- The pseudo-messages the subscription loop of `updateTime` puts on queues at
time `t` for the updated `handles`, in order, each with the local index of its
endpoint. -/
def valueEvents (s : MessageFederateManager) (t : Time) (handles : List handle_id_t) :
    List (Nat × Message) :=
  handles.filterMap (fun handle =>
    match s.subHandleLookup.lookup handle with
    | none => none
    | some sfnd =>
      match s.local_endpoints.dataStorage[sfnd.1]? with
      | some e =>
        some (sfnd.1, { source := sfnd.2, dest := e.name, original_source := sfnd.2,
                        data := s.coreObject.getValue handle, time := t })
      | none => none)

/-- Every message one `updateTime (newTime, _)` puts on a queue, in the order
it does so: the drained ones, then the synthesized ones. -/
def enqueuedBy (s : MessageFederateManager) (newTime : Time) : List (Nat × Message) :=
  drainedEvents s.local_endpoints (s.coreObject.pendingAny.take s.coreObject.countAny)
    ++ (if s.hasSubscriptions then valueEvents s newTime s.coreObject.valueUpdates else [])

/-- The enqueued messages for which a callback is due, each with that callback. -/
def expectedCallbacks (s : MessageFederateManager) (events : List (Nat × Message)) :
    List ((Nat × Message) × Callback) :=
  events.filterMap (fun em =>
    match chosenCallback s em.1 with
    | some cb => some (em, cb)
    | none => none)

/-- A logged callback invocation answers an enqueued message: it ran the due
callback with arguments (endpoint, `t`), and when it ran the message was the
last one on the endpoint's queue. -/
def CallbackMatches (t : Time) (c : CallbackCall) (x : (Nat × Message) × Callback) : Prop :=
  c.callback = x.2 ∧ c.endpoint = x.1.1 ∧ c.time = t ∧
    (c.queues[x.1.1]?).bind List.getLast? = some x.1.2

instance (t : Time) (c : CallbackCall) (x : (Nat × Message) × Callback) :
    Decidable (CallbackMatches t c x) := by
  unfold CallbackMatches; infer_instance

/-- The initialized two-endpoint manager with callback 40 registered for
endpoint 1 and callback 50 for all endpoints, whose core holds one pending
message for each endpoint (handles 7 and 8). -/
def callbackManager : MessageFederateManager :=
  { startupToInitializeStateTransition
      (registerEndpoint (registerEndpoint exampleManager "a" "t").2 "b" "t").2 with
    coreObject := { exampleCore with
      nextHandle := 9, pendingAny := [(7, pingFirst), (8, pingSecond)], countAny := 2 }
    callbacks := [50, 40]
    allCallbackIndex := 0
    local_endpoints := ⟨[⟨"a", "t", 0, 7, -1⟩, ⟨"b", "t", 1, 8, 1⟩]⟩ }

/-! ## Reachable states -/

/-- Two manager states with the same endpoint table, callbacks and
subscription links, and as many inbound queues. -/
def SameTables (s s1 : MessageFederateManager) : Prop :=
  s1.local_endpoints = s.local_endpoints ∧ s1.callbacks = s.callbacks ∧
  s1.allCallbackIndex = s.allCallbackIndex ∧ s1.subHandleLookup = s.subHandleLookup ∧
  s1.hasSubscriptions = s.hasSubscriptions ∧
  s1.messageQueues.length = s.messageQueues.length

/-- What holds of every reachable manager state: records carry their index as
id, callback indices and subscription links are valid, links exist only when
`hasSubscriptions` is set, and there are no more queues than endpoints. -/
def Consistent (s : MessageFederateManager) : Prop :=
  IdsDense s ∧ CallbacksValid s ∧ SubscriptionsValid s ∧
  (s.subHandleLookup ≠ [] → s.hasSubscriptions = true) ∧
  s.messageQueues.length ≤ s.local_endpoints.size

instance (s : MessageFederateManager) : Decidable (Consistent s) := by
  unfold Consistent; infer_instance

instance (s s1 : MessageFederateManager) : Decidable (SameTables s s1) := by
  unfold SameTables; infer_instance

/-- The manager states reached from the constructor by calls of the member
functions that return normally; between calls the core may change by itself
(messages and value updates arrive). -/
inductive Reachable : MessageFederateManager → Prop where
  | new (coreOb : Core) (id : federate_id_t) : Reachable (MessageFederateManager.new coreOb id)
  | coreStep (s : MessageFederateManager) (c : Core) :
      Reachable s → Reachable { s with coreObject := c }
  | registerEndpoint (s : MessageFederateManager) (name type : String) :
      Reachable s → Reachable (registerEndpoint s name type).2
  | registerKnownCommunicationPath (s s1 : MessageFederateManager) (e : endpoint_id_t)
      (remote : String) :
      Reachable s → registerKnownCommunicationPath s e remote = Except.ok s1 → Reachable s1
  | subscribe (s s1 : MessageFederateManager) (e : endpoint_id_t) (name type : String) :
      Reachable s → subscribe s e name type = Except.ok s1 → Reachable s1
  | getMessage_id (s s1 : MessageFederateManager) (e : endpoint_id_t) (r : Option Message) :
      Reachable s → getMessage_id s e = Except.ok (r, s1) → Reachable s1
  | getMessage (s : MessageFederateManager) : Reachable s → Reachable (getMessage s).2
  | sendMessage (s s1 : MessageFederateManager) (e : endpoint_id_t) (dest data : String) :
      Reachable s → sendMessage s e dest data = Except.ok s1 → Reachable s1
  | sendMessage_time (s s1 : MessageFederateManager) (e : endpoint_id_t) (dest data : String)
      (t : Time) :
      Reachable s → sendMessage_time s e dest data t = Except.ok s1 → Reachable s1
  | sendMessage_message (s s1 : MessageFederateManager) (e : endpoint_id_t) (m : Message) :
      Reachable s → sendMessage_message s e m = Except.ok s1 → Reachable s1
  | updateTime (s s1 : MessageFederateManager) (newTime oldTime : Time) :
      Reachable s → updateTime s newTime oldTime = Except.ok s1 → Reachable s1
  | startupToInitializeStateTransition (s : MessageFederateManager) :
      Reachable s → Reachable (startupToInitializeStateTransition s)
  | registerCallback (s s1 : MessageFederateManager) (cb : Callback) :
      Reachable s → registerCallback s cb = Except.ok s1 → Reachable s1
  | registerCallback_id (s s1 : MessageFederateManager) (e : endpoint_id_t) (cb : Callback) :
      Reachable s → registerCallback_id s e cb = Except.ok s1 → Reachable s1
  | registerCallback_ids (s : MessageFederateManager) (ids : List endpoint_id_t)
      (cb : Callback) :
      Reachable s → Reachable (registerCallback_ids s ids cb)
  | removeOrderedMessage (s s1 : MessageFederateManager) (index : Nat) :
      Reachable s → removeOrderedMessage s index = Except.ok s1 → Reachable s1

/-- A callback index is either negative ("none") or a valid index into the
callbacks list. -/
def CallbackIndexValid (callbacks : List Callback) (ind : Int) : Prop :=
  ind < 0 ∨ ind.toNat < callbacks.length

instance (callbacks : List Callback) (ind : Int) : Decidable (CallbackIndexValid callbacks ind) := by
  unfold CallbackIndexValid; infer_instance

/-- The all-endpoints callback index and every endpoint's callback index are
negative or valid. -/
def IndicesValid (s : MessageFederateManager) : Prop :=
  CallbackIndexValid s.callbacks s.allCallbackIndex ∧
  ∀ e ∈ s.local_endpoints.dataStorage, CallbackIndexValid s.callbacks e.callbackIndex

instance (s : MessageFederateManager) : Decidable (IndicesValid s) := by
  unfold IndicesValid; infer_instance

/-- The manager states in which `startupToInitializeStateTransition` has run
after the last `registerEndpoint`: the transition out of any reachable state,
followed by calls of the other member functions that return normally, the core
changing by itself between calls. -/
inductive Started : MessageFederateManager → Prop where
  | startupToInitializeStateTransition (s : MessageFederateManager) :
      Reachable s → Started (startupToInitializeStateTransition s)
  | coreStep (s : MessageFederateManager) (c : Core) :
      Started s → Started { s with coreObject := c }
  | registerKnownCommunicationPath (s s1 : MessageFederateManager) (e : endpoint_id_t)
      (remote : String) :
      Started s → registerKnownCommunicationPath s e remote = Except.ok s1 → Started s1
  | subscribe (s s1 : MessageFederateManager) (e : endpoint_id_t) (name type : String) :
      Started s → subscribe s e name type = Except.ok s1 → Started s1
  | getMessage_id (s s1 : MessageFederateManager) (e : endpoint_id_t) (r : Option Message) :
      Started s → getMessage_id s e = Except.ok (r, s1) → Started s1
  | getMessage (s : MessageFederateManager) : Started s → Started (getMessage s).2
  | sendMessage (s s1 : MessageFederateManager) (e : endpoint_id_t) (dest data : String) :
      Started s → sendMessage s e dest data = Except.ok s1 → Started s1
  | sendMessage_time (s s1 : MessageFederateManager) (e : endpoint_id_t) (dest data : String)
      (t : Time) :
      Started s → sendMessage_time s e dest data t = Except.ok s1 → Started s1
  | sendMessage_message (s s1 : MessageFederateManager) (e : endpoint_id_t) (m : Message) :
      Started s → sendMessage_message s e m = Except.ok s1 → Started s1
  | updateTime (s s1 : MessageFederateManager) (newTime oldTime : Time) :
      Started s → updateTime s newTime oldTime = Except.ok s1 → Started s1
  | registerCallback (s s1 : MessageFederateManager) (cb : Callback) :
      Started s → registerCallback s cb = Except.ok s1 → Started s1
  | registerCallback_id (s s1 : MessageFederateManager) (e : endpoint_id_t) (cb : Callback) :
      Started s → registerCallback_id s e cb = Except.ok s1 → Started s1
  | registerCallback_ids (s : MessageFederateManager) (ids : List endpoint_id_t)
      (cb : Callback) :
      Started s → Started (registerCallback_ids s ids cb)
  | removeOrderedMessage (s s1 : MessageFederateManager) (index : Nat) :
      Started s → removeOrderedMessage s index = Except.ok s1 → Started s1

/-- The initialized example manager after the core has received one message
for the endpoint's handle. -/
def startedManager : MessageFederateManager :=
  { readyManager with
    coreObject := { readyManager.coreObject with pendingAny := [(7, pingFirst)], countAny := 1 } }

/-! ## Theorems -/

theorem findName_insert_fresh (d : DualMappedVector) (name type : String) (h : handle_id_t)
    (id : endpoint_id_t) (hfresh : d.findName name = none) :
    (d.insert name h type id).findName name = some ⟨name, type, id, h, -1⟩ := by
  unfold DualMappedVector.findName at hfresh ⊢
  simp [DualMappedVector.insert, List.find?_append, hfresh, List.find?]

theorem getElem?_insert_size (d : DualMappedVector) (name type : String) (h : handle_id_t)
    (id : endpoint_id_t) :
    (d.insert name h type id).dataStorage[d.size]? = some ⟨name, type, id, h, -1⟩ := by
  simp [DualMappedVector.insert, DualMappedVector.size]

theorem size_insert (d : DualMappedVector) (name type : String) (h : handle_id_t)
    (id : endpoint_id_t) : (d.insert name h type id).size = d.size + 1 := by
  simp [DualMappedVector.insert, DualMappedVector.size]

theorem getElem?_insert_lt (d : DualMappedVector) (name type : String) (h : handle_id_t)
    (id : endpoint_id_t) (i : Nat) (hi : i < d.size) :
    (d.insert name h type id).dataStorage[i]? = d.dataStorage[i]? := by
  unfold DualMappedVector.size at hi
  simp [DualMappedVector.insert, List.getElem?_append_left hi]

/-- C1: for every manager state and every endpoint name not yet registered in
it, when `registerEndpoint (name, type)` returns `id` (leaving the manager in
state `s1`), `getEndpointId (name)` returns that `id`, `getEndpointName (id)`
returns `name` and `getEndpointType (id)` returns `type`. -/
theorem registerEndpoint_round_trip (s s1 : MessageFederateManager) (name type : String)
    (id : endpoint_id_t) (hfresh : s.local_endpoints.findName name = none)
    (hreg : registerEndpoint s name type = (id, s1)) :
    getEndpointId s1 name = id ∧ getEndpointName s1 id = name ∧ getEndpointType s1 id = type := by
  unfold registerEndpoint at hreg
  simp only [Prod.mk.injEq] at hreg
  obtain ⟨hid, hs1⟩ := hreg
  subst hs1
  subst hid
  refine ⟨?_, ?_, ?_⟩
  · simp [getEndpointId, findName_insert_fresh _ _ _ _ _ hfresh]
  · simp [getEndpointName, size_insert, getElem?_insert_size]
  · simp [getEndpointType, size_insert, getElem?_insert_size]

/-- Witness of C1: registering the fresh name `"ep"` on the example manager. -/
theorem registerEndpoint_round_trip_witness :
    getEndpointId (registerEndpoint exampleManager "ep" "t").2 "ep" = 0 ∧
    getEndpointName (registerEndpoint exampleManager "ep" "t").2 0 = "ep" ∧
    getEndpointType (registerEndpoint exampleManager "ep" "t").2 0 = "t" :=
  registerEndpoint_round_trip exampleManager (registerEndpoint exampleManager "ep" "t").2
    "ep" "t" 0 (by decide) (by rfl)

/-- C2: local endpoint indices are dense and in registration order. In a
manager state holding `n` endpoints, `registerEndpoint` of a fresh name returns `n`,
`getEndpointCount` afterwards is `n + 1`, and each of the `n` earlier endpoints
keeps its record (id, name, type, global handle), so the name and type reported
for its index and the id reported for its name are unchanged. -/
theorem registerEndpoint_dense (s : MessageFederateManager) (name type : String)
    (_hfresh : s.local_endpoints.findName name = none) :
    (registerEndpoint s name type).1 = s.local_endpoints.size ∧
    getEndpointCount (registerEndpoint s name type).2 = getEndpointCount s + 1 ∧
    ∀ i, i < s.local_endpoints.size →
      (registerEndpoint s name type).2.local_endpoints.dataStorage[i]?
        = s.local_endpoints.dataStorage[i]? ∧
      getEndpointName (registerEndpoint s name type).2 i = getEndpointName s i ∧
      getEndpointType (registerEndpoint s name type).2 i = getEndpointType s i ∧
      ∀ e, s.local_endpoints.dataStorage[i]? = some e →
        getEndpointId (registerEndpoint s name type).2 e.name = getEndpointId s e.name := by
  refine ⟨rfl, ?_, ?_⟩
  · simp [getEndpointCount, registerEndpoint, size_insert]
  · intro i hi
    have hget := getElem?_insert_lt s.local_endpoints name type s.coreObject.nextHandle
      s.local_endpoints.size i hi
    refine ⟨?_, ?_, ?_, ?_⟩
    · simpa [registerEndpoint, Core.registerEndpoint] using hget
    · simp [getEndpointName, registerEndpoint, Core.registerEndpoint, size_insert, hget, hi,
        Nat.lt_succ_of_lt hi]
    · simp [getEndpointType, registerEndpoint, Core.registerEndpoint, size_insert, hget, hi,
        Nat.lt_succ_of_lt hi]
    · intro e he
      have hmem : e ∈ s.local_endpoints.dataStorage := List.getElem?_mem he
      have hsome : ∃ x, s.local_endpoints.dataStorage.find? (fun y => y.name == e.name) = some x := by
        cases hf : s.local_endpoints.dataStorage.find? (fun y => y.name == e.name) with
        | some x => exact ⟨x, rfl⟩
        | none =>
          rw [List.find?_eq_none] at hf
          exact absurd (by simp) (hf e hmem)
      obtain ⟨x, hx⟩ := hsome
      simp [getEndpointId, registerEndpoint, DualMappedVector.findName, DualMappedVector.insert,
        List.find?_append, hx]

/-- Witness of C2: the second registration on the example manager returns 1 and
keeps the first endpoint. -/
theorem registerEndpoint_dense_witness :
    (registerEndpoint (registerEndpoint exampleManager "a" "t").2 "b" "u").1 = 1 ∧
    getEndpointName (registerEndpoint (registerEndpoint exampleManager "a" "t").2 "b" "u").2 0
      = "a" := by
  have h := registerEndpoint_dense (registerEndpoint exampleManager "a" "t").2 "b" "u"
    (by decide)
  refine ⟨h.1, ?_⟩
  rw [(h.2.2 0 (by decide)).2.1]
  rfl

/-- Counterexample to C3: after the first `registerEndpoint` on a fresh manager
returns id 0 there is one endpoint and no inbound queue at all; `hasMessage (0)`
indexes past the end of `messageQueues`. -/
theorem registerEndpoint_appends_no_queue :
    (registerEndpoint exampleManager "ep" "t").1 = 0 ∧
    (registerEndpoint exampleManager "ep" "t").2.messageQueues[0]? = none ∧
    (registerEndpoint exampleManager "ep" "t").2.messageQueues.length = 0 ∧
    (registerEndpoint exampleManager "ep" "t").2.local_endpoints.size = 1 ∧
    hasMessage_id (registerEndpoint exampleManager "ep" "t").2 0
      = Except.error Fault.undefined_behaviour := by
  decide

theorem length_resize (mqs : List (List Message)) (n : Nat) : (resize mqs n).length = n := by
  simp only [resize, List.length_append, List.length_take, List.length_replicate]
  omega

theorem getElem?_resize_new (mqs : List (List Message)) (n i : Nat) (h1 : mqs.length ≤ i)
    (h2 : i < n) : (resize mqs n)[i]? = some [] := by
  have hlen : (mqs.take n).length ≤ i := by
    simp only [List.length_take]
    omega
  simp only [resize, List.getElem?_append_right hlen, List.getElem?_replicate, List.length_take]
  have : i - min n mqs.length < n - mqs.length := by omega
  simp [this]

theorem getElem?_resize_old (mqs : List (List Message)) (n i : Nat) (h1 : i < mqs.length)
    (h2 : i < n) : (resize mqs n)[i]? = mqs[i]? := by
  have hlen : i < (mqs.take n).length := by
    simp only [List.length_take]
    omega
  simp [resize, List.getElem?_append_left hlen, List.getElem?_take, h2]

/-- C3, amended: `registerEndpoint` leaves the inbound queues as they are; the
queue of the new endpoint is created by `startupToInitializeStateTransition`.
In every manager state with no more queues than endpoints, once
`registerEndpoint` has returned `id` and the transition has run, the manager
holds an inbound queue at index `id`, that queue is empty, and the number of
inbound queues equals the number of registered endpoints. -/
theorem registerEndpoint_then_startup_queue (s : MessageFederateManager) (name type : String)
    (hq : s.messageQueues.length ≤ s.local_endpoints.size) :
    (registerEndpoint s name type).2.messageQueues = s.messageQueues ∧
    (startupToInitializeStateTransition (registerEndpoint s name type).2).messageQueues[
        (registerEndpoint s name type).1]? = some [] ∧
    (startupToInitializeStateTransition (registerEndpoint s name type).2).messageQueues.length
      = (startupToInitializeStateTransition (registerEndpoint s name type).2).local_endpoints.size := by
  refine ⟨rfl, ?_, ?_⟩
  · simp only [startupToInitializeStateTransition, registerEndpoint, size_insert]
    exact getElem?_resize_new _ _ _ hq (Nat.lt_succ_self _)
  · simp only [startupToInitializeStateTransition, length_resize]

/-- Witness of the amended C3 on the example manager. -/
theorem registerEndpoint_then_startup_queue_witness :
    (registerEndpoint exampleManager "ep" "t").2.messageQueues = [] ∧
    (startupToInitializeStateTransition (registerEndpoint exampleManager "ep" "t").2).messageQueues[
        (registerEndpoint exampleManager "ep" "t").1]? = some [] ∧
    (startupToInitializeStateTransition
        (registerEndpoint exampleManager "ep" "t").2).messageQueues.length
      = (startupToInitializeStateTransition
        (registerEndpoint exampleManager "ep" "t").2).local_endpoints.size :=
  registerEndpoint_then_startup_queue exampleManager "ep" "t" (by decide)

/-- Counterexample to C4: with look-ahead 2 and granted time 3, the send with
explicit timestamp 4 (which is below 3 + 2) returns normally and hands the
message to the core as a `sendEvent` call. -/
theorem sendMessage_time_violating_lookahead :
    (4 : Time) < lookAheadManager.CurrentTime + lookAheadManager.coreObject.timeLookAhead ∧
    sendMessage_time lookAheadManager 0 "dest" "payload" 4
      = Except.ok { lookAheadManager with coreObject :=
          { lookAheadManager.coreObject with calls :=
              lookAheadManager.coreObject.calls ++ [CoreCall.sendEvent 4 7 "dest" "payload"] } } := by
  decide

theorem index_of_getElem? {α : Type} (xs : List α) (i : Nat) (x : α) (h : xs[i]? = some x) :
    index xs i = Except.ok x := by
  simp [index, h]

theorem exists_getElem?_of_lt {α : Type} (xs : List α) (i : Nat) (h : i < xs.length) :
    ∃ x, xs[i]? = some x :=
  ⟨xs[i], List.getElem?_eq_getElem h⟩

/-- C4, amended: the manager makes no look-ahead check. For every valid source
endpoint and every explicit timestamp `t`, whatever the granted time `g` and
the look-ahead `l` (also when `t < g + l`), `sendMessage (source, dest,
payload, t)` returns normally and hands the message to the core: the core's
call log grows by exactly one `sendEvent` call carrying `t`. -/
theorem sendMessage_time_always_sends (s : MessageFederateManager) (source : endpoint_id_t)
    (dest payload : String) (t g l : Time) (hsrc : source < s.local_endpoints.size) :
    ∃ e s1, s.local_endpoints.dataStorage[source]? = some e ∧
      sendMessage_time
        { s with CurrentTime := g, coreObject := { s.coreObject with timeLookAhead := l } }
        source dest payload t = Except.ok s1 ∧
      s1.coreObject.calls = s.coreObject.calls ++ [CoreCall.sendEvent t e.handle dest payload] := by
  obtain ⟨e, he⟩ := exists_getElem?_of_lt s.local_endpoints.dataStorage source hsrc
  refine ⟨e, { s with CurrentTime := g, coreObject :=
    { s.coreObject with timeLookAhead := l, calls :=
        s.coreObject.calls ++ [CoreCall.sendEvent t e.handle dest payload] } }, he, ?_, rfl⟩
  simp only [sendMessage_time]
  rw [if_pos hsrc, index_of_getElem? _ _ _ he]
  rfl

/-- Witness of the amended C4: the look-ahead scenario itself. -/
theorem sendMessage_time_always_sends_witness :
    ∃ e s1, lookAheadManager.local_endpoints.dataStorage[0]? = some e ∧
      sendMessage_time
        { lookAheadManager with
          CurrentTime := 3
          coreObject := { lookAheadManager.coreObject with timeLookAhead := 2 } }
        0 "dest" "payload" 4 = Except.ok s1 ∧
      s1.coreObject.calls
        = lookAheadManager.coreObject.calls ++ [CoreCall.sendEvent 4 e.handle "dest" "payload"] :=
  sendMessage_time_always_sends lookAheadManager 0 "dest" "payload" 4 3 2 (by decide)

/-- C5: each of the three `sendMessage` overloads resolves the local source
index to the global handle in that endpoint's record. For a source index below
the endpoint count the call returns normally, the manager is unchanged but for
the core, and the core's call log grows by exactly one call (`send`,
`sendEvent`, `sendMessage`) carrying that handle and the caller's destination,
payload and time unchanged; the record's handle is the one the core returned at
registration. For a source index at or above the endpoint count each overload
raises `invalid_argument` (no state results, so no core call is made). -/
theorem sendMessage_resolves_handle (s : MessageFederateManager) (source : endpoint_id_t)
    (dest payload : String) (t : Time) (m : Message) :
    (source < s.local_endpoints.size →
      ∃ e, s.local_endpoints.dataStorage[source]? = some e ∧
        sendMessage s source dest payload = Except.ok { s with coreObject :=
          { s.coreObject with calls := s.coreObject.calls ++ [CoreCall.send e.handle dest payload] } } ∧
        sendMessage_time s source dest payload t = Except.ok { s with coreObject :=
          { s.coreObject with calls :=
              s.coreObject.calls ++ [CoreCall.sendEvent t e.handle dest payload] } } ∧
        sendMessage_message s source m = Except.ok { s with coreObject :=
          { s.coreObject with calls := s.coreObject.calls ++ [CoreCall.sendMessage e.handle m] } }) ∧
    (s.local_endpoints.size ≤ source →
      sendMessage s source dest payload
        = Except.error (Fault.invalid_argument "endpoint id is invalid") ∧
      sendMessage_time s source dest payload t
        = Except.error (Fault.invalid_argument "endpoint id is invalid") ∧
      sendMessage_message s source m
        = Except.error (Fault.invalid_argument "endpoint id is invalid")) ∧
    (∀ name type, (registerEndpoint s name type).2.local_endpoints.dataStorage[
        (registerEndpoint s name type).1]?
      = some ⟨name, type, (registerEndpoint s name type).1,
          (s.coreObject.registerEndpoint s.fedID name type).1, -1⟩) := by
  refine ⟨?_, ?_, ?_⟩
  · intro hsrc
    obtain ⟨e, he⟩ := exists_getElem?_of_lt s.local_endpoints.dataStorage source hsrc
    refine ⟨e, he, ?_, ?_, ?_⟩
    · simp only [sendMessage]
      rw [if_pos hsrc, index_of_getElem? _ _ _ he]
      rfl
    · simp only [sendMessage_time]
      rw [if_pos hsrc, index_of_getElem? _ _ _ he]
      rfl
    · simp only [sendMessage_message]
      rw [if_pos hsrc, index_of_getElem? _ _ _ he]
      rfl
  · intro hsrc
    have hn : ¬ source < s.local_endpoints.size := Nat.not_lt.mpr hsrc
    simp [sendMessage, sendMessage_time, sendMessage_message, hn]
  · intro name type
    exact getElem?_insert_size _ _ _ _ _

/-- Witness of C5: in the look-ahead scenario source 0 is valid (handle 7) and
source 5 is not. -/
theorem sendMessage_resolves_handle_witness :
    (∃ s1, sendMessage lookAheadManager 0 "dest" "payload" = Except.ok s1 ∧
      s1.coreObject.calls = lookAheadManager.coreObject.calls ++ [CoreCall.send 7 "dest" "payload"]) ∧
    sendMessage lookAheadManager 5 "dest" "payload"
      = Except.error (Fault.invalid_argument "endpoint id is invalid") := by
  have h := sendMessage_resolves_handle lookAheadManager 0 "dest" "payload" 0 ⟨0, "", "", "", ""⟩
  have h5 := sendMessage_resolves_handle lookAheadManager 5 "dest" "payload" 0 ⟨0, "", "", "", ""⟩
  obtain ⟨e, he, hs, -, -⟩ := h.1 (by decide)
  have he7 : e.handle = 7 := by
    have : lookAheadManager.local_endpoints.dataStorage[0]? = some ⟨"src", "t", 0, 7, -1⟩ := by
      decide
    rw [this] at he
    injection he with he
    rw [← he]
  refine ⟨⟨_, hs, ?_⟩, (h5.2.1 (by decide)).1⟩
  simp [he7]

theorem id_of_getElem? (s : MessageFederateManager) (hd : IdsDense s) (k : Nat)
    (e : endpoint_info) (he : s.local_endpoints.dataStorage[k]? = some e) : e.id = k := by
  unfold IdsDense at hd
  have h1 : (s.local_endpoints.dataStorage.map (fun e => e.id))[k]? = some e.id := by
    simp [List.getElem?_map, he]
  rw [hd] at h1
  have hk : k < s.local_endpoints.size := by
    by_contra hk
    rw [List.getElem?_eq_none (by simpa using Nat.le_of_not_lt hk)] at h1
    exact Option.noConfusion h1
  rw [List.getElem?_range hk] at h1
  injection h1 with h1
  exact h1.symm

theorem findHandle_dense (s : MessageFederateManager) (hd : IdsDense s) (h : handle_id_t)
    (fid : endpoint_info) (hf : s.local_endpoints.findHandle h = some fid) :
    s.local_endpoints.dataStorage[fid.id]? = some fid ∧ fid.id < s.local_endpoints.size ∧
      fid.handle = h := by
  unfold DualMappedVector.findHandle at hf
  have hmem : fid ∈ s.local_endpoints.dataStorage := List.mem_of_find?_eq_some hf
  have hp := List.find?_some hf
  obtain ⟨k, hk⟩ := List.mem_iff_getElem?.mp hmem
  have hid := id_of_getElem? s hd k fid hk
  have hlt : k < s.local_endpoints.dataStorage.length := by
    by_contra hc
    rw [List.getElem?_eq_none (Nat.le_of_not_lt hc)] at hk
    exact Option.noConfusion hk
  rw [hid]
  exact ⟨hk, hlt, by simpa using hp⟩

theorem enqueue_eq (s : MessageFederateManager) (i : Nat) (m : Message) (q : List Message)
    (hq : s.messageQueues[i]? = some q) :
    enqueue s i m = Except.ok { s with messageQueues := s.messageQueues.set i (q ++ [m]) } := by
  simp only [enqueue, index_of_getElem? _ _ _ hq]

theorem dispatch_eq (s : MessageFederateManager) (i : Nat) (id : endpoint_id_t) (tOwn tAll : Time)
    (e : endpoint_info) (he : s.local_endpoints.dataStorage[i]? = some e)
    (hcb : CallbacksValid s) :
    ∃ L, dispatch s i id tOwn tAll = Except.ok { s with callbackLog := s.callbackLog ++ L } := by
  have hmem : e ∈ s.local_endpoints.dataStorage := List.getElem?_mem he
  simp only [dispatch, index_of_getElem? _ _ _ he]
  by_cases h1 : 0 ≤ e.callbackIndex
  · have hlt : e.callbackIndex.toNat < s.callbacks.length := by
      have := hcb.2 e hmem
      omega
    obtain ⟨cb, hcbk⟩ := exists_getElem?_of_lt s.callbacks _ hlt
    refine ⟨[⟨cb, id, tOwn, s.messageQueues⟩], ?_⟩
    simp only [if_pos h1, index_of_getElem? _ _ _ hcbk, invoke]
  · by_cases h2 : 0 ≤ s.allCallbackIndex
    · have hlt : s.allCallbackIndex.toNat < s.callbacks.length := by
        have := hcb.1
        omega
      obtain ⟨ac, hac⟩ := exists_getElem?_of_lt s.callbacks _ hlt
      refine ⟨[⟨ac, id, tAll, s.messageQueues⟩], ?_⟩
      simp only [if_neg h1, if_pos h2, index_of_getElem? _ _ _ hac, invoke]
    · refine ⟨[], ?_⟩
      simp only [if_neg h1, if_neg h2, List.append_nil]

theorem routed_nil (d : DualMappedVector) (i : Nat) : routed d i [] = [] := rfl

theorem routed_cons (d : DualMappedVector) (i : Nat) (h : handle_id_t) (m : Message)
    (msgs : List (handle_id_t × Message)) :
    routed d i ((h, m) :: msgs)
      = if routesTo d i h then m :: routed d i msgs else routed d i msgs := by
  unfold routed
  by_cases hr : routesTo d i h = true
  · simp [List.filter_cons, hr]
  · simp [List.filter_cons, hr]

theorem count_step (c n k : Nat) : c - 1 - min n k = c - min (n + 1) (k + 1) := by
  omega

/-- The message loop of `updateTime` on an initialized manager: it terminates
normally, takes the first `n` pending messages from the core, appends to each
queue the messages routed to it (in core order) and changes nothing else but
the log of callback invocations. -/
theorem drainLoop_spec (n : Nat) : ∀ s : MessageFederateManager, Initialized s →
    ∃ Q L, drainLoop n s = Except.ok
        { s with coreObject := { s.coreObject with
                   pendingAny := s.coreObject.pendingAny.drop n,
                   countAny := s.coreObject.countAny - min n s.coreObject.pendingAny.length },
                 messageQueues := Q, callbackLog := s.callbackLog ++ L } ∧
      Q.length = s.messageQueues.length ∧
      ∀ i, Q[i]? = (s.messageQueues[i]?).map
        (fun q => q ++ routed s.local_endpoints i (s.coreObject.pendingAny.take n)) := by
  induction n with
  | zero =>
    intro s _
    refine ⟨s.messageQueues, [], ?_, rfl, ?_⟩
    · simp [drainLoop]
    · intro i
      simp [routed_nil]
  | succ n ih =>
    intro s hs
    cases hp : s.coreObject.pendingAny with
    | nil =>
      refine ⟨s.messageQueues, [], ?_, rfl, ?_⟩
      · simp only [drainLoop, Core.receiveAny, hp, List.drop_nil, List.append_nil,
          List.length_nil, Nat.min_zero, Nat.sub_zero]
        rw [← hp]
      · intro i
        simp [routed_nil]
    | cons hm rest =>
      obtain ⟨h, m⟩ := hm
      cases hf : s.local_endpoints.findHandle h with
      | none =>
        have hs1 : Initialized { s with coreObject := { s.coreObject with pendingAny := rest, countAny := s.coreObject.countAny - 1 } } := hs
        obtain ⟨Q, L, hrun, hlen, hQ⟩ := ih _ hs1
        refine ⟨Q, L, ?_, hlen, ?_⟩
        · simp only [drainLoop, Core.receiveAny, hp, hf]
          erw [hrun]
          simp [count_step]
        · intro i
          rw [hQ i]
          simp [routed_cons, routesTo, hf]
      | some fid =>
        obtain ⟨hfid, hlt, -⟩ := findHandle_dense s hs.1 h fid hf
        have hltq : fid.id < s.messageQueues.length := by
          rw [hs.2.1]; exact hlt
        obtain ⟨q, hq⟩ := exists_getElem?_of_lt s.messageQueues _ hltq
        have henq := enqueue_eq { s with coreObject := { s.coreObject with pendingAny := rest, countAny := s.coreObject.countAny - 1 } }
          fid.id m q hq
        have hs2 : Initialized
            { s with
              coreObject := { s.coreObject with pendingAny := rest, countAny := s.coreObject.countAny - 1 }
              messageQueues := s.messageQueues.set fid.id (q ++ [m]) } := by
          refine ⟨hs.1, ?_, hs.2.2.1, hs.2.2.2⟩
          show (s.messageQueues.set fid.id (q ++ [m])).length = s.local_endpoints.size
          rw [List.length_set]
          exact hs.2.1
        obtain ⟨L1, hdisp⟩ := dispatch_eq
          { s with
            coreObject := { s.coreObject with pendingAny := rest, countAny := s.coreObject.countAny - 1 }
            messageQueues := s.messageQueues.set fid.id (q ++ [m]) }
          fid.id fid.id s.CurrentTime s.CurrentTime fid hfid hs2.2.2.1
        have hs3 : Initialized
            { s with
              coreObject := { s.coreObject with pendingAny := rest, countAny := s.coreObject.countAny - 1 }
              messageQueues := s.messageQueues.set fid.id (q ++ [m])
              callbackLog := s.callbackLog ++ L1 } := hs2
        obtain ⟨Q, L, hrun, hlen, hQ⟩ := ih _ hs3
        refine ⟨Q, L1 ++ L, ?_, ?_, ?_⟩
        · simp only [drainLoop, Core.receiveAny, hp, hf]
          erw [henq]
          simp only []
          erw [hdisp]
          simp only []
          erw [hrun]
          simp [List.append_assoc, count_step]
        · rw [hlen]
          exact List.length_set _ _ _
        · intro i
          rw [hQ i]
          simp only [List.take_succ_cons, routed_cons, routesTo, hf, List.getElem?_set]
          by_cases hi : fid.id = i
          · subst hi
            simp [hltq, hq]
          · have hi2 : (fid.id == i) = false := by simpa using hi
            simp [hi, hi2]

theorem mem_of_lookup {κ ν : Type} [BEq κ] (k : κ) (v : ν) :
    ∀ m : List (κ × ν), m.lookup k = some v → ∃ k1, (k1, v) ∈ m := by
  intro m
  induction m with
  | nil => intro h; simp at h
  | cons p m ih =>
    intro h
    obtain ⟨k1, v1⟩ := p
    rw [List.lookup_cons] at h
    cases hk : (k == k1) with
    | true =>
      rw [hk] at h
      injection h with h
      exact ⟨k1, by simp [h]⟩
    | false =>
      rw [hk] at h
      obtain ⟨k2, h2⟩ := ih h
      exact ⟨k2, List.mem_cons_of_mem _ h2⟩

/-- The subscription loop of `updateTime` on an initialized manager: it
terminates normally, appends to each queue the pseudo-messages of the updated
handles linked to it (in update order) and changes nothing else but the log of
callback invocations. -/
theorem valueLoop_spec (newTime : Time) (handles : List handle_id_t) :
    ∀ s : MessageFederateManager, Initialized s →
    ∃ Q L, valueLoop newTime handles s = Except.ok
        { s with messageQueues := Q, callbackLog := s.callbackLog ++ L } ∧
      Q.length = s.messageQueues.length ∧
      ∀ i, Q[i]? = (s.messageQueues[i]?).map
        (fun q => q ++ synthesized s s.CurrentTime i handles) := by
  induction handles with
  | nil =>
    intro s _
    refine ⟨s.messageQueues, [], ?_, rfl, ?_⟩
    · simp [valueLoop]
    · intro i
      simp [synthesized]
  | cons handle handles ih =>
    intro s hs
    cases hl : s.subHandleLookup.lookup handle with
    | none =>
      obtain ⟨Q, L, hrun, hlen, hQ⟩ := ih s hs
      refine ⟨Q, L, ?_, hlen, ?_⟩
      · simp only [valueLoop, hl]
        exact hrun
      · intro i
        rw [hQ i]
        simp [synthesized, synthesizedFor, hl]
    | some sfnd =>
      obtain ⟨k1, hmem⟩ := mem_of_lookup handle sfnd s.subHandleLookup hl
      have hlt : sfnd.1 < s.local_endpoints.size := hs.2.2.2 _ hmem
      obtain ⟨e, he⟩ := exists_getElem?_of_lt s.local_endpoints.dataStorage _ hlt
      have hltq : sfnd.1 < s.messageQueues.length := by
        rw [hs.2.1]; exact hlt
      obtain ⟨q, hq⟩ := exists_getElem?_of_lt s.messageQueues _ hltq
      have henq := enqueue_eq s sfnd.1
        { source := sfnd.2, dest := e.name, original_source := sfnd.2,
          data := s.coreObject.getValue handle, time := s.CurrentTime } q hq
      have hs2 : Initialized
          { s with
            messageQueues := s.messageQueues.set sfnd.1
              (q ++ [{ source := sfnd.2, dest := e.name, original_source := sfnd.2,
                       data := s.coreObject.getValue handle, time := s.CurrentTime }]) } := by
        refine ⟨hs.1, ?_, hs.2.2.1, hs.2.2.2⟩
        show (s.messageQueues.set sfnd.1 _).length = s.local_endpoints.size
        rw [List.length_set]
        exact hs.2.1
      obtain ⟨L1, hdisp⟩ := dispatch_eq
        { s with
          messageQueues := s.messageQueues.set sfnd.1
            (q ++ [{ source := sfnd.2, dest := e.name, original_source := sfnd.2,
                     data := s.coreObject.getValue handle, time := s.CurrentTime }]) }
        sfnd.1 sfnd.1 newTime s.CurrentTime e he hs2.2.2.1
      have hs3 : Initialized
          { s with
            messageQueues := s.messageQueues.set sfnd.1
              (q ++ [{ source := sfnd.2, dest := e.name, original_source := sfnd.2,
                       data := s.coreObject.getValue handle, time := s.CurrentTime }])
            callbackLog := s.callbackLog ++ L1 } := hs2
      obtain ⟨Q, L, hrun, hlen, hQ⟩ := ih _ hs3
      refine ⟨Q, L1 ++ L, ?_, ?_, ?_⟩
      · simp only [valueLoop, hl, index_of_getElem? _ _ _ he]
        erw [henq]
        simp only []
        erw [hdisp]
        simp only []
        erw [hrun]
        simp [List.append_assoc]
      · rw [hlen]
        exact List.length_set _ _ _
      · intro i
        have hsyn : ∀ (Q1 : List (List Message)) (L2 : List CallbackCall),
            synthesized { s with messageQueues := Q1, callbackLog := L2 } s.CurrentTime i handles
              = synthesized s s.CurrentTime i handles := fun _ _ => rfl
        rw [hQ i]
        simp only [hsyn]
        simp only [synthesized, List.filterMap_cons, synthesizedFor, hl, he, List.getElem?_set]
        by_cases hi : sfnd.1 = i
        · subst hi
          simp [hltq, hq]
        · simp [hi]

/-- The whole of `updateTime` on an initialized manager: it returns normally,
sets the current time, takes the first `countAny` pending messages from the
core, and appends to each queue first the messages routed to it, then the
pseudo-messages of its subscriptions. -/
theorem updateTime_spec (s : MessageFederateManager) (newTime oldTime : Time)
    (hs : Initialized s) :
    ∃ Q L, updateTime s newTime oldTime = Except.ok
        { s with CurrentTime := newTime,
                 coreObject := { s.coreObject with
                   pendingAny := s.coreObject.pendingAny.drop s.coreObject.countAny,
                   countAny := s.coreObject.countAny
                     - min s.coreObject.countAny s.coreObject.pendingAny.length },
                 messageQueues := Q, callbackLog := s.callbackLog ++ L } ∧
      Q.length = s.messageQueues.length ∧
      ∀ i, Q[i]? = (s.messageQueues[i]?).map
        (fun q => q ++ routed s.local_endpoints i
            (s.coreObject.pendingAny.take s.coreObject.countAny)
          ++ (if s.hasSubscriptions then synthesized s newTime i s.coreObject.valueUpdates
              else [])) := by
  have hs0 : Initialized { s with CurrentTime := newTime } := hs
  obtain ⟨Q1, L1, hrun1, hlen1, hQ1⟩ :=
    drainLoop_spec s.coreObject.countAny { s with CurrentTime := newTime } hs0
  by_cases hsub : s.hasSubscriptions = true
  case neg =>
    refine ⟨Q1, L1, ?_, hlen1, ?_⟩
    · simp only [updateTime, Core.receiveCountAny]
      erw [hrun1]
      simp [hsub]
    · intro i
      rw [hQ1 i]
      simp [hsub]
  case pos =>
    have hs1 : Initialized
        { s with
          CurrentTime := newTime
          coreObject := { s.coreObject with
            pendingAny := s.coreObject.pendingAny.drop s.coreObject.countAny,
            countAny := s.coreObject.countAny
              - min s.coreObject.countAny s.coreObject.pendingAny.length }
          messageQueues := Q1
          callbackLog := s.callbackLog ++ L1 } := by
      refine ⟨hs.1, ?_, hs.2.2.1, hs.2.2.2⟩
      show Q1.length = s.local_endpoints.size
      rw [hlen1]
      exact hs.2.1
    obtain ⟨Q2, L2, hrun2, hlen2, hQ2⟩ := valueLoop_spec newTime s.coreObject.valueUpdates _ hs1
    refine ⟨Q2, L1 ++ L2, ?_, ?_, ?_⟩
    · simp only [updateTime, Core.receiveCountAny]
      erw [hrun1]
      simp only [Core.getValueUpdates]
      rw [if_pos hsub]
      erw [hrun2]
      simp [List.append_assoc]
    · rw [hlen2]
      exact hlen1
    · intro i
      have hsyn : synthesized
          { s with
            CurrentTime := newTime
            coreObject := { s.coreObject with
              pendingAny := s.coreObject.pendingAny.drop s.coreObject.countAny,
              countAny := s.coreObject.countAny
                - min s.coreObject.countAny s.coreObject.pendingAny.length }
            messageQueues := Q1
            callbackLog := s.callbackLog ++ L1 } newTime i s.coreObject.valueUpdates
          = synthesized s newTime i s.coreObject.valueUpdates := rfl
      rw [hQ2 i]
      erw [hsyn, hQ1 i]
      cases s.messageQueues[i]? with
      | none => rfl
      | some q => simp [hsub]

theorem findHandle_of_distinct (s : MessageFederateManager) (hd : HandlesDistinct s) (i : Nat)
    (e : endpoint_info) (he : s.local_endpoints.dataStorage[i]? = some e) :
    s.local_endpoints.findHandle e.handle = some e := by
  unfold HandlesDistinct at hd
  unfold DualMappedVector.findHandle
  have hmem : e ∈ s.local_endpoints.dataStorage := List.getElem?_mem he
  cases hf : s.local_endpoints.dataStorage.find? (fun x => x.handle == e.handle) with
  | none =>
    rw [List.find?_eq_none] at hf
    exact absurd (by simp) (hf e hmem)
  | some x =>
    have hx : x ∈ s.local_endpoints.dataStorage := List.mem_of_find?_eq_some hf
    have hxe : x.handle = e.handle := by simpa using List.find?_some hf
    have := List.inj_on_of_nodup_map hd hx hmem hxe
    rw [this]

/-- With distinct handles, the messages routed to endpoint `i` are exactly the
ones whose destination handle is that endpoint's global handle. -/
theorem routed_eq_filter (s : MessageFederateManager) (hd : IdsDense s) (hh : HandlesDistinct s)
    (i : Nat) (e : endpoint_info) (he : s.local_endpoints.dataStorage[i]? = some e)
    (msgs : List (handle_id_t × Message)) :
    routed s.local_endpoints i msgs
      = (msgs.filter (fun p => p.1 == e.handle)).map Prod.snd := by
  unfold routed
  congr 1
  apply List.filter_congr
  intro p _
  unfold routesTo
  by_cases hp : p.1 = e.handle
  · rw [hp, findHandle_of_distinct s hh i e he]
    simp [id_of_getElem? s hd i e he]
  · cases hf : s.local_endpoints.findHandle p.1 with
    | none => simp [hp]
    | some fid =>
      obtain ⟨hfid, -, hfh⟩ := findHandle_dense s hd p.1 fid hf
      have hne : fid.id ≠ i := by
        intro hc
        rw [hc, he] at hfid
        injection hfid with hfid
        rw [hfid] at hp
        exact hp hfh.symm
      simp [hp, hne]

/-- Counterexample to C6: on an initialized manager at granted time 5, the call
`updateTime (3, 5)` returns normally and leaves the current time at 3. -/
theorem updateTime_time_can_decrease :
    timeFiveManager.CurrentTime = 5 ∧
    updateTime timeFiveManager 3 5 = Except.ok { timeFiveManager with CurrentTime := 3 } := by
  decide

/-- C6, amended: `updateTime (newTime, oldTime)` sets the manager's current
time to `newTime` without comparing it with the time before; on every
initialized manager the call returns normally, and the current time after it is
greater than or equal to the current time before it whenever `newTime` is. -/
theorem updateTime_time_monotone (s : MessageFederateManager) (newTime oldTime : Time)
    (hs : Initialized s) (hle : s.CurrentTime ≤ newTime) :
    ∃ s1, updateTime s newTime oldTime = Except.ok s1 ∧ s1.CurrentTime = newTime ∧
      s.CurrentTime ≤ s1.CurrentTime := by
  obtain ⟨Q, L, hrun, -, -⟩ := updateTime_spec s newTime oldTime hs
  exact ⟨_, hrun, rfl, hle⟩

/-- Witness of the amended C6: time 5 to time 8. -/
theorem updateTime_time_monotone_witness :
    ∃ s1, updateTime timeFiveManager 8 5 = Except.ok s1 ∧ s1.CurrentTime = 8 ∧
      timeFiveManager.CurrentTime ≤ s1.CurrentTime :=
  updateTime_time_monotone timeFiveManager 8 5 (by decide) (by decide)

theorem mem_routed (d : DualMappedVector) (i : Nat) (msgs : List (handle_id_t × Message))
    (m : Message) (hm : m ∈ routed d i msgs) : ∃ p ∈ msgs, p.2 = m := by
  unfold routed at hm
  rw [List.mem_map] at hm
  obtain ⟨p, hp, hpm⟩ := hm
  exact ⟨p, (List.mem_filter.mp hp).1, hpm⟩

theorem time_of_mem_synthesized (s : MessageFederateManager) (t : Time) (i : Nat)
    (handles : List handle_id_t) (m : Message) (hm : m ∈ synthesized s t i handles) :
    m.time = t := by
  unfold synthesized at hm
  rw [List.mem_filterMap] at hm
  obtain ⟨h, -, hsm⟩ := hm
  unfold synthesizedFor at hsm
  split at hsm
  · exact Option.noConfusion hsm
  · split at hsm
    · split at hsm
      · injection hsm with hsm
        rw [← hsm]
      · exact Option.noConfusion hsm
    · exact Option.noConfusion hsm

/-- Counterexample to C7: the core holds a pending message stamped 10 for the
endpoint's handle; `updateTime (5, 0)` returns normally with current time 5 and
that message, time 10, on the endpoint's queue. -/
theorem updateTime_enqueues_later_message :
    updateTime lateMessageManager 5 0 = Except.ok
      { readyManager with CurrentTime := 5,
                          messageQueues := [[⟨10, "x", "ep", "far", "far"⟩]] } ∧
    lateMessageManager.messageQueues = [[]] ∧
    ¬ ((⟨10, "x", "ep", "far", "far"⟩ : Message).time ≤ 5) := by
  decide

/-- C7, amended: `updateTime (newTime, _)` never compares a message's time with
the granted time. On every initialized manager it returns normally with current
time `newTime` and appends to each queue first the messages drained from the
core for it, with the timestamps the core gave them, then the pseudo-messages
synthesized for it. Every synthesized message has time exactly `newTime`; every
drained message has time at most `newTime` provided each pending core message
the call takes has. -/
theorem updateTime_enqueued_times (s : MessageFederateManager) (newTime oldTime : Time)
    (hs : Initialized s)
    (hcore : ∀ p ∈ s.coreObject.pendingAny.take s.coreObject.countAny, p.2.time ≤ newTime) :
    ∃ s1, updateTime s newTime oldTime = Except.ok s1 ∧ s1.CurrentTime = newTime ∧
      ∀ i q, s.messageQueues[i]? = some q →
        ∃ drained pseudo, s1.messageQueues[i]? = some (q ++ drained ++ pseudo) ∧
          drained = routed s.local_endpoints i
            (s.coreObject.pendingAny.take s.coreObject.countAny) ∧
          (∀ m ∈ drained, m.time ≤ s1.CurrentTime) ∧
          (∀ m ∈ pseudo, m.time = s1.CurrentTime) := by
  obtain ⟨Q, L, hrun, -, hQ⟩ := updateTime_spec s newTime oldTime hs
  refine ⟨_, hrun, rfl, ?_⟩
  intro i q hq
  refine ⟨_, (if s.hasSubscriptions then synthesized s newTime i s.coreObject.valueUpdates
    else []), ?_, rfl, ?_, ?_⟩
  · show Q[i]? = _
    rw [hQ i, hq]
    rfl
  · intro m hm
    obtain ⟨p, hp, hpm⟩ := mem_routed _ _ _ _ hm
    rw [← hpm]
    exact hcore p hp
  · intro m hm
    by_cases hsub : s.hasSubscriptions = true
    · rw [if_pos hsub] at hm
      exact time_of_mem_synthesized s newTime i _ m hm
    · rw [if_neg hsub] at hm
      simp at hm

/-- Witness of the amended C7: the pending messages stamped 1, 1 and 2, drained
at time 4. -/
theorem updateTime_enqueued_times_witness :
    ∃ s1, updateTime pingManager 4 0 = Except.ok s1 ∧ s1.CurrentTime = 4 ∧
      ∀ i q, pingManager.messageQueues[i]? = some q →
        ∃ drained pseudo, s1.messageQueues[i]? = some (q ++ drained ++ pseudo) ∧
          drained = routed pingManager.local_endpoints i
            (pingManager.coreObject.pendingAny.take pingManager.coreObject.countAny) ∧
          (∀ m ∈ drained, m.time ≤ s1.CurrentTime) ∧
          (∀ m ∈ pseudo, m.time = s1.CurrentTime) :=
  updateTime_enqueued_times pingManager 4 0 (by decide) (by decide)

theorem set_of_getElem? {α : Type} (xs : List α) (i : Nat) (x : α) (h : xs[i]? = some x) :
    xs.set i x = xs := by
  apply List.ext_getElem?
  intro j
  rw [List.getElem?_set]
  by_cases hij : i = j
  · subst hij
    have hlt : i < xs.length := by
      by_contra hc
      rw [List.getElem?_eq_none (Nat.le_of_not_lt hc)] at h
      exact Option.noConfusion h
    simp [hlt, h]
  · simp [hij]

/-- Popping a queue to its end: as many `getMessage (i)` calls as queue `i`
holds messages return those messages, head first, and leave the queue empty. -/
theorem getMessages_all (q : List Message) : ∀ (s : MessageFederateManager) (i : Nat),
    i < s.local_endpoints.size → s.messageQueues[i]? = some q →
    getMessages q.length s i
      = Except.ok (q.map some, { s with messageQueues := s.messageQueues.set i [] }) := by
  induction q with
  | nil =>
    intro s i _ hq
    simp only [List.length_nil, getMessages, List.map_nil]
    rw [set_of_getElem? _ _ _ hq]
  | cons m rest ih =>
    intro s i hi hq
    have hlt : i < s.messageQueues.length := by
      by_contra hc
      rw [List.getElem?_eq_none (Nat.le_of_not_lt hc)] at hq
      exact Option.noConfusion hq
    have h1 : getMessage_id s i
        = Except.ok (some m, { s with messageQueues := s.messageQueues.set i rest }) := by
      simp only [getMessage_id]
      rw [if_pos hi, index_of_getElem? _ _ _ hq]
    have h2 := ih { s with messageQueues := s.messageQueues.set i rest } i hi
      (by simp [List.getElem?_set, hlt])
    simp only [List.length_cons, getMessages, h1]
    erw [h2]
    simp [List.set_set]

/-- One `updateTime` seen from endpoint `e` (local index `i`) of an initialized
manager with distinct handles: the call returns normally and the endpoint's
queue grows by the messages drained for its handle, then its pseudo-messages. -/
theorem updateTime_queue_of_endpoint (s : MessageFederateManager) (newTime oldTime : Time)
    (i : Nat) (e : endpoint_info) (hs : Initialized s) (hd : HandlesDistinct s)
    (he : s.local_endpoints.dataStorage[i]? = some e) :
    ∃ Q L q, s.messageQueues[i]? = some q ∧
      updateTime s newTime oldTime = Except.ok
        { s with CurrentTime := newTime,
                 coreObject := { s.coreObject with
                   pendingAny := s.coreObject.pendingAny.drop s.coreObject.countAny,
                   countAny := s.coreObject.countAny
                     - min s.coreObject.countAny s.coreObject.pendingAny.length },
                 messageQueues := Q, callbackLog := s.callbackLog ++ L } ∧
      Q.length = s.messageQueues.length ∧
      Q[i]? = some (q ++ drainedFor s.coreObject e.handle ++ pseudoFor s newTime i) := by
  obtain ⟨Q, L, hrun, hlen, hQ⟩ := updateTime_spec s newTime oldTime hs
  have hi : i < s.local_endpoints.size := by
    by_contra hc
    rw [List.getElem?_eq_none (Nat.le_of_not_lt hc)] at he
    exact Option.noConfusion he
  obtain ⟨q, hq⟩ := exists_getElem?_of_lt s.messageQueues i (by rw [hs.2.1]; exact hi)
  refine ⟨Q, L, q, hq, hrun, hlen, ?_⟩
  rw [hQ i, hq, routed_eq_filter s hs.1 hd i e he]
  rfl

/-- C8: per-endpoint delivery is first-in-first-out. On every initialized
manager with distinct endpoint handles, for every endpoint `e` (local index
`i`): `updateTime` returns normally and the successive `getMessage (i)` calls
then return, in this order, the messages queued before the call (`q`), the
messages the core's `receiveAny` yielded for `e`'s handle in the order it
yielded them, and the pseudo-messages of the call. When instead a second
`updateTime` runs first, on whatever the core holds by then (`core2`), the
successive `getMessage (i)` calls return all of those in the same order,
followed by the messages the core yielded for `e`'s handle in the second call,
in the order it yielded them. So of two messages the core yields for `e`'s
handle, in the same or in successive `updateTime` calls, the one yielded first
is returned first. -/
theorem updateTime_fifo (s : MessageFederateManager) (newTime oldTime newTime2 oldTime2 : Time)
    (core2 : Core) (i : Nat) (e : endpoint_info)
    (hs : Initialized s) (hd : HandlesDistinct s)
    (he : s.local_endpoints.dataStorage[i]? = some e) :
    ∃ q s1 s2 r1 r2, s.messageQueues[i]? = some q ∧
      updateTime s newTime oldTime = Except.ok s1 ∧
      getMessages (q ++ drainedFor s.coreObject e.handle ++ pseudoFor s newTime i).length s1 i
        = Except.ok ((q ++ drainedFor s.coreObject e.handle ++ pseudoFor s newTime i).map some,
            r1) ∧
      updateTime { s1 with coreObject := core2 } newTime2 oldTime2 = Except.ok s2 ∧
      getMessages (q ++ drainedFor s.coreObject e.handle ++ pseudoFor s newTime i
          ++ drainedFor core2 e.handle
          ++ pseudoFor { s with coreObject := core2 } newTime2 i).length s2 i
        = Except.ok ((q ++ drainedFor s.coreObject e.handle ++ pseudoFor s newTime i
          ++ drainedFor core2 e.handle
          ++ pseudoFor { s with coreObject := core2 } newTime2 i).map some, r2) := by
  obtain ⟨Q, L, q, hq, hrun, hlen, hQi⟩ :=
    updateTime_queue_of_endpoint s newTime oldTime i e hs hd he
  have hi : i < s.local_endpoints.size := by
    by_contra hc
    rw [List.getElem?_eq_none (Nat.le_of_not_lt hc)] at he
    exact Option.noConfusion he
  have hs1 : Initialized
      { s with
        CurrentTime := newTime
        coreObject := core2
        messageQueues := Q
        callbackLog := s.callbackLog ++ L } := by
    refine ⟨hs.1, ?_, hs.2.2.1, hs.2.2.2⟩
    show Q.length = s.local_endpoints.size
    rw [hlen]
    exact hs.2.1
  obtain ⟨Q2, L2, q2, hq2, hrun2, -, hQ2i⟩ :=
    updateTime_queue_of_endpoint
      { s with
        CurrentTime := newTime
        coreObject := core2
        messageQueues := Q
        callbackLog := s.callbackLog ++ L }
      newTime2 oldTime2 i e hs1 hd he
  have hq2eq : q2 = q ++ drainedFor s.coreObject e.handle ++ pseudoFor s newTime i := by
    have h3 : Q[i]? = some q2 := hq2
    rw [hQi] at h3
    injection h3 with h3
    exact h3.symm
  rw [hq2eq] at hQ2i
  exact ⟨q, _, _, _, _, hq, hrun, getMessages_all _ _ i hi hQi, hrun2,
    getMessages_all _ _ i hi hQ2i⟩

/-- Witness of C8: the core yields `pingFirst` and `pingSecond` for handle 7
(and a message for an unknown handle in between), and the same again by the
second call; `getMessage (0)` returns first, second, first, second. -/
theorem updateTime_fifo_witness :
    ∃ q s1 s2 r1 r2, pingManager.messageQueues[0]? = some q ∧
      updateTime pingManager 4 0 = Except.ok s1 ∧
      getMessages (q ++ drainedFor pingManager.coreObject 7 ++ pseudoFor pingManager 4 0).length
          s1 0
        = Except.ok ((q ++ drainedFor pingManager.coreObject 7
            ++ pseudoFor pingManager 4 0).map some, r1) ∧
      updateTime { s1 with coreObject := pingManager.coreObject } 6 4 = Except.ok s2 ∧
      getMessages (q ++ drainedFor pingManager.coreObject 7 ++ pseudoFor pingManager 4 0
          ++ drainedFor pingManager.coreObject 7
          ++ pseudoFor { pingManager with coreObject := pingManager.coreObject } 6 0).length s2 0
        = Except.ok ((q ++ drainedFor pingManager.coreObject 7 ++ pseudoFor pingManager 4 0
          ++ drainedFor pingManager.coreObject 7
          ++ pseudoFor { pingManager with coreObject := pingManager.coreObject } 6 0).map some,
            r2) :=
  updateTime_fifo pingManager 4 0 6 4 pingManager.coreObject 0 ⟨"ep", "t", 0, 7, -1⟩
    (by decide) (by decide) (by decide)

/-- Counterexample to C9: the core yields, for the same endpoint and from the
same source `"a"`, a message stamped 5 and then one stamped 3 (both at most
the granted time 9); after `updateTime (9, 0)` the queue holds them in that
order, the later timestamp nearer the head. -/
theorem updateTime_queue_not_ascending :
    Initialized unorderedManager ∧
    updateTime unorderedManager 9 0 = Except.ok
      { readyManager with
        CurrentTime := 9
        messageQueues := [[⟨5, "x", "ep", "a", "a"⟩, ⟨3, "y", "ep", "a", "a"⟩]] } ∧
    ¬ QueueOrdered [⟨5, "x", "ep", "a", "a"⟩, ⟨3, "y", "ep", "a", "a"⟩] := by
  decide

/-- C9, amended: the manager keeps every inbound queue in arrival order and
never sorts it. On every initialized manager, after `updateTime (newTime, _)`
the queue of endpoint `i` is its content before the call, followed by the
messages drained for it in core order, followed by its pseudo-messages; it is
ordered by timestamp ascending within each source provided the content before
the call followed by the drained messages is so ordered and none of those
messages is later than `newTime`. -/
theorem updateTime_keeps_arrival_order (s : MessageFederateManager) (newTime oldTime : Time)
    (i : Nat) (q : List Message) (hs : Initialized s) (hq : s.messageQueues[i]? = some q)
    (hord : QueueOrdered (q ++ routed s.local_endpoints i
      (s.coreObject.pendingAny.take s.coreObject.countAny)))
    (hle : ∀ m ∈ q ++ routed s.local_endpoints i
      (s.coreObject.pendingAny.take s.coreObject.countAny), m.time ≤ newTime) :
    ∃ s1 q1, updateTime s newTime oldTime = Except.ok s1 ∧ s1.messageQueues[i]? = some q1 ∧
      q1 = q ++ routed s.local_endpoints i (s.coreObject.pendingAny.take s.coreObject.countAny)
        ++ (if s.hasSubscriptions then synthesized s newTime i s.coreObject.valueUpdates
            else []) ∧
      QueueOrdered q1 := by
  obtain ⟨Q, L, hrun, -, hQ⟩ := updateTime_spec s newTime oldTime hs
  refine ⟨_, _, hrun, ?_, rfl, ?_⟩
  · show Q[i]? = _
    rw [hQ i, hq]
    rfl
  · unfold QueueOrdered at hord ⊢
    rw [List.pairwise_append]
    refine ⟨hord, ?_, ?_⟩
    · by_cases hsub : s.hasSubscriptions = true
      · rw [if_pos hsub]
        rw [List.pairwise_iff_forall_sublist]
        intro a b hab _
        have ha := time_of_mem_synthesized s newTime i _ a (hab.subset (by simp))
        have hb := time_of_mem_synthesized s newTime i _ b (hab.subset (by simp))
        rw [ha, hb]
      · rw [if_neg hsub]
        exact List.Pairwise.nil
    · intro a ha b hb _
      by_cases hsub : s.hasSubscriptions = true
      · rw [if_pos hsub] at hb
        rw [time_of_mem_synthesized s newTime i _ b hb]
        exact hle a ha
      · rw [if_neg hsub] at hb
        simp at hb

/-- Witness of the amended C9: the pending messages stamped 1 and 2 arrive in
ascending order. -/
theorem updateTime_keeps_arrival_order_witness :
    ∃ s1 q1, updateTime pingManager 4 0 = Except.ok s1 ∧ s1.messageQueues[0]? = some q1 ∧
      q1 = [] ++ routed pingManager.local_endpoints 0
          (pingManager.coreObject.pendingAny.take pingManager.coreObject.countAny)
        ++ (if pingManager.hasSubscriptions
            then synthesized pingManager 4 0 pingManager.coreObject.valueUpdates else []) ∧
      QueueOrdered q1 :=
  updateTime_keeps_arrival_order pingManager 4 0 0 [] (by decide) (by decide) (by decide)
    (by decide)

/-- C10: `updateTime` drains the core's any-endpoint buffer into the
per-endpoint queues by global handle. On every initialized manager with
distinct endpoint handles and no subscription, for every endpoint `e` (local
index `i`), `updateTime` returns normally, `receiveCount (i)` afterwards equals
`receiveCount (i)` before plus the number of messages, among the
`receiveCountAny (fed)` messages pending at entry, whose destination handle is
`e`'s global handle, and all of those pending messages have been taken from the
core. -/
theorem updateTime_receiveCount (s : MessageFederateManager) (newTime oldTime : Time) (i : Nat)
    (e : endpoint_info) (hs : Initialized s) (hd : HandlesDistinct s)
    (hsub : s.hasSubscriptions = false)
    (he : s.local_endpoints.dataStorage[i]? = some e) :
    ∃ s1 n, updateTime s newTime oldTime = Except.ok s1 ∧
      receiveCount_id s i = Except.ok n ∧
      receiveCount_id s1 i = Except.ok (n +
        ((s.coreObject.pendingAny.take (s.coreObject.receiveCountAny s.fedID)).filter
          (fun p => p.1 == e.handle)).length) ∧
      s1.coreObject.pendingAny
        = s.coreObject.pendingAny.drop (s.coreObject.receiveCountAny s.fedID) := by
  obtain ⟨Q, L, hrun, hlen, hQ⟩ := updateTime_spec s newTime oldTime hs
  have hi : i < s.local_endpoints.size := by
    by_contra hc
    rw [List.getElem?_eq_none (Nat.le_of_not_lt hc)] at he
    exact Option.noConfusion he
  obtain ⟨q, hq⟩ := exists_getElem?_of_lt s.messageQueues i (by rw [hs.2.1]; exact hi)
  refine ⟨_, q.length, hrun, ?_, ?_, rfl⟩
  · simp only [receiveCount_id]
    rw [if_pos hi, index_of_getElem? _ _ _ hq]
  · have hQi : Q[i]? = some (q ++ ((s.coreObject.pendingAny.take s.coreObject.countAny).filter
        (fun p => p.1 == e.handle)).map Prod.snd) := by
      rw [hQ i, hq, routed_eq_filter s hs.1 hd i e he]
      simp [hsub]
    simp only [receiveCount_id]
    rw [if_pos hi]
    erw [index_of_getElem? _ _ _ hQi]
    simp [Core.receiveCountAny]

/-- Witness of C10: of the three pending messages two are for handle 7. -/
theorem updateTime_receiveCount_witness :
    ∃ s1 n, updateTime pingManager 4 0 = Except.ok s1 ∧
      receiveCount_id pingManager 0 = Except.ok n ∧
      receiveCount_id s1 0 = Except.ok (n +
        ((pingManager.coreObject.pendingAny.take
            (pingManager.coreObject.receiveCountAny pingManager.fedID)).filter
          (fun p => p.1 == (⟨"ep", "t", 0, 7, -1⟩ : endpoint_info).handle)).length) ∧
      s1.coreObject.pendingAny
        = pingManager.coreObject.pendingAny.drop
            (pingManager.coreObject.receiveCountAny pingManager.fedID) :=
  updateTime_receiveCount pingManager 4 0 0 ⟨"ep", "t", 0, 7, -1⟩ (by decide) (by decide)
    (by decide) (by decide)

/-! ### The invariants are those of the states the manager reaches -/

theorem idsDense_new (coreOb : Core) (id : federate_id_t) :
    IdsDense (MessageFederateManager.new coreOb id) := rfl

theorem idsDense_registerEndpoint (s : MessageFederateManager) (name type : String)
    (h : IdsDense s) : IdsDense (registerEndpoint s name type).2 := by
  unfold IdsDense at h ⊢
  simp only [registerEndpoint, DualMappedVector.insert, DualMappedVector.size, List.map_append,
    List.length_append, List.length_singleton, List.range_succ, List.map_cons, List.map_nil]
  rw [h]
  rfl

theorem callbacksValid_registerEndpoint (s : MessageFederateManager) (name type : String)
    (h : CallbacksValid s) : CallbacksValid (registerEndpoint s name type).2 := by
  refine ⟨h.1, ?_⟩
  intro e he
  simp only [registerEndpoint, DualMappedVector.insert, List.mem_append, List.mem_singleton] at he
  rcases he with he | he
  · exact h.2 e he
  · rw [he]
    show (-1 : Int) < (s.callbacks.length : Int)
    omega

theorem subscriptionsValid_registerEndpoint (s : MessageFederateManager) (name type : String)
    (h : SubscriptionsValid s) : SubscriptionsValid (registerEndpoint s name type).2 := by
  intro p hp
  have hlt : p.2.1 < s.local_endpoints.size := h p hp
  show p.2.1 < (s.local_endpoints.insert name _ type _).size
  rw [size_insert]
  exact Nat.lt_succ_of_lt hlt

theorem handlesDistinct_registerEndpoint (s : MessageFederateManager) (name type : String)
    (h : HandlesDistinct s)
    (hfresh : ∀ e ∈ s.local_endpoints.dataStorage, e.handle ≠ s.coreObject.nextHandle) :
    HandlesDistinct (registerEndpoint s name type).2 := by
  unfold HandlesDistinct at h ⊢
  simp only [registerEndpoint, DualMappedVector.insert, Core.registerEndpoint, List.map_append,
    List.map_cons, List.map_nil]
  rw [List.nodup_append]
  refine ⟨h, List.nodup_singleton _, ?_⟩
  intro a ha hb
  rw [List.mem_singleton] at hb
  rw [List.mem_map] at ha
  obtain ⟨e, he, hea⟩ := ha
  exact hfresh e he (hea.trans hb)

theorem initialized_startup (s : MessageFederateManager) (h1 : IdsDense s)
    (h2 : CallbacksValid s) (h3 : SubscriptionsValid s) :
    Initialized (startupToInitializeStateTransition s) :=
  ⟨h1, length_resize _ _, h2, h3⟩

theorem initialized_updateTime (s s1 : MessageFederateManager) (newTime oldTime : Time)
    (hs : Initialized s) (hrun : updateTime s newTime oldTime = Except.ok s1) :
    Initialized s1 := by
  obtain ⟨Q, L, hrun1, hlen, -⟩ := updateTime_spec s newTime oldTime hs
  rw [hrun1] at hrun
  injection hrun with hrun
  rw [← hrun]
  refine ⟨hs.1, ?_, hs.2.2.1, hs.2.2.2⟩
  show Q.length = s.local_endpoints.size
  rw [hlen]
  exact hs.2.1

/-! ### Receiving -/

theorem getMessages_succ (k : Nat) (s : MessageFederateManager) (e : endpoint_id_t) :
    getMessages (k + 1) s e =
      match getMessage_id s e with
      | Except.error f => Except.error f
      | Except.ok (r, s1) =>
        match getMessages k s1 e with
        | Except.error f => Except.error f
        | Except.ok (rs, s2) => Except.ok (r :: rs, s2) := rfl

/-- One call more than the queue holds messages: the messages, head first, then
a null result. -/
theorem getMessages_all_then_empty (q : List Message) :
    ∀ (s : MessageFederateManager) (i : Nat),
    i < s.local_endpoints.size → s.messageQueues[i]? = some q →
    getMessages (q.length + 1) s i
      = Except.ok (q.map some ++ [none],
          { s with messageQueues := s.messageQueues.set i [] }) := by
  induction q with
  | nil =>
    intro s i hi hq
    have h1 : getMessage_id s i = Except.ok (none, s) := by
      simp only [getMessage_id]
      rw [if_pos hi, index_of_getElem? _ _ _ hq]
    simp only [List.length_nil, getMessages, h1, List.map_nil, List.nil_append]
    rw [set_of_getElem? _ _ _ hq]
  | cons m rest ih =>
    intro s i hi hq
    have hlt : i < s.messageQueues.length := by
      by_contra hc
      rw [List.getElem?_eq_none (Nat.le_of_not_lt hc)] at hq
      exact Option.noConfusion hq
    have h1 : getMessage_id s i
        = Except.ok (some m, { s with messageQueues := s.messageQueues.set i rest }) := by
      simp only [getMessage_id]
      rw [if_pos hi, index_of_getElem? _ _ _ hq]
    have h2 := ih { s with messageQueues := s.messageQueues.set i rest } i hi
      (by simp [List.getElem?_set, hlt])
    simp only [List.length_cons]
    rw [getMessages_succ, h1]
    simp only []
    erw [h2]
    simp [List.set_set]

/-- C12: receive is a non-blocking polling pair. For every endpoint `e` below
the endpoint count whose queue `q` exists: `receiveCount (e)` is the length `n`
of `q`; of `n + 1` successive `getMessage (e)` calls the first `n` return the
queued messages and the last returns empty; a `getMessage (e)` that returns a
message lowers `receiveCount (e)` by exactly one, leaves every other queue
unchanged and changes nothing else in the manager; a `getMessage` on an empty
queue, or on an index at or above the endpoint count, returns empty and leaves
the state unchanged. -/
theorem getMessage_polling (s : MessageFederateManager) (e : endpoint_id_t) (q : List Message)
    (he : e < s.local_endpoints.size) (hq : s.messageQueues[e]? = some q) :
    receiveCount_id s e = Except.ok q.length ∧
    (∃ s2, getMessages (q.length + 1) s e = Except.ok (q.map some ++ [none], s2)) ∧
    (∀ m rest, q = m :: rest →
      ∃ s1, getMessage_id s e = Except.ok (some m, s1) ∧
        receiveCount_id s1 e = Except.ok (q.length - 1) ∧
        (∀ j, j ≠ e → s1.messageQueues[j]? = s.messageQueues[j]?) ∧
        s1 = { s with messageQueues := s1.messageQueues }) ∧
    (q = [] → getMessage_id s e = Except.ok (none, s)) ∧
    (∀ id, s.local_endpoints.size ≤ id → getMessage_id s id = Except.ok (none, s)) := by
  have hlt : e < s.messageQueues.length := by
    by_contra hc
    rw [List.getElem?_eq_none (Nat.le_of_not_lt hc)] at hq
    exact Option.noConfusion hq
  refine ⟨?_, ⟨_, getMessages_all_then_empty q s e he hq⟩, ?_, ?_, ?_⟩
  · simp only [receiveCount_id]
    rw [if_pos he, index_of_getElem? _ _ _ hq]
  · intro m rest hm
    subst hm
    refine ⟨{ s with messageQueues := s.messageQueues.set e rest }, ?_, ?_, ?_, rfl⟩
    · simp only [getMessage_id]
      rw [if_pos he, index_of_getElem? _ _ _ hq]
    · have h2 : (s.messageQueues.set e rest)[e]? = some rest := by
        simp [List.getElem?_set, hlt]
      simp only [receiveCount_id]
      rw [if_pos he]
      erw [index_of_getElem? _ _ _ h2]
      simp
    · intro j hj
      show (s.messageQueues.set e rest)[j]? = _
      rw [List.getElem?_set]
      simp [Ne.symm hj]
  · intro hnil
    subst hnil
    simp only [getMessage_id]
    rw [if_pos he, index_of_getElem? _ _ _ hq]
  · intro id hid
    simp only [getMessage_id]
    rw [if_neg (Nat.not_lt.mpr hid)]

/-- Witness of C12: two messages wait on endpoint 0; three calls return the
first, the second, and empty. -/
theorem getMessage_polling_witness :
    receiveCount_id queuedManager 0 = Except.ok 2 ∧
    (∃ s2, getMessages 3 queuedManager 0
      = Except.ok ([some pingFirst, some pingSecond, none], s2)) := by
  have h := getMessage_polling queuedManager 0 [pingFirst, pingSecond] (by decide) (by decide)
  exact ⟨h.1, h.2.1⟩

theorem foldl_receiveCount (Q : List (List Message)) : ∀ a : Nat,
    Q.foldl (fun sz mq => sz + mq.length) a = a + (Q.map List.length).sum := by
  induction Q with
  | nil => intro a; simp
  | cons q Q ih =>
    intro a
    simp only [List.foldl_cons, List.map_cons, List.sum_cons]
    rw [ih]
    omega

theorem receiveCount_eq_sum (s : MessageFederateManager) :
    receiveCount s = (s.messageQueues.map List.length).sum := by
  simp [receiveCount, foldl_receiveCount]

/-- The scan of `getMessage ()` finds nothing exactly when every queue is empty. -/
theorem getMessageScan_none (Q : List (List Message)) :
    getMessageScan Q = none ↔ ∀ q ∈ Q, q = [] := by
  induction Q with
  | nil => simp [getMessageScan]
  | cons q Q ih =>
    cases q with
    | nil =>
      cases hsc : getMessageScan Q with
      | none =>
        have := ih.mp hsc
        simp only [getMessageScan, hsc, List.mem_cons, forall_eq_or_imp, true_and]
        exact ⟨fun _ => this, fun _ => trivial⟩
      | some r =>
        have hne : ¬ ∀ q ∈ Q, q = [] := fun hall => by
          rw [ih.mpr hall] at hsc
          exact Option.noConfusion hsc
        simp [getMessageScan, hsc, hne]
    | cons m rest => simp [getMessageScan]

/-- What the scan of `getMessage ()` finds: the head of the first non-empty
queue, which it pops; the queues before it are empty and nothing else changes. -/
theorem getMessageScan_some (Q : List (List Message)) :
    ∀ (m : Message) (Q1 : List (List Message)), getMessageScan Q = some (m, Q1) →
    ∃ k rest, Q[k]? = some (m :: rest) ∧ (∀ j, j < k → Q[j]? = some []) ∧
      Q1 = Q.set k rest ∧ (Q1.map List.length).sum + 1 = (Q.map List.length).sum := by
  induction Q with
  | nil => intro m Q1 h; simp [getMessageScan] at h
  | cons q Q ih =>
    intro m Q1 h
    cases q with
    | cons m0 rest =>
      simp only [getMessageScan, Option.some.injEq, Prod.mk.injEq] at h
      obtain ⟨hm, hQ1⟩ := h
      subst hm
      subst hQ1
      refine ⟨0, rest, by simp, ?_, rfl, ?_⟩
      · intro j hj
        exact absurd hj (Nat.not_lt_zero j)
      · simp only [List.map_cons, List.sum_cons, List.length_cons]
        omega
    | nil =>
      cases hsc : getMessageScan Q with
      | none => simp [getMessageScan, hsc] at h
      | some r =>
        obtain ⟨m1, Q2⟩ := r
        simp only [getMessageScan, hsc, Option.some.injEq, Prod.mk.injEq] at h
        obtain ⟨hm, hQ1⟩ := h
        subst hm
        subst hQ1
        obtain ⟨k, rest, hk, hbefore, hset, hsum⟩ := ih m1 Q2 hsc
        refine ⟨k + 1, rest, by simpa using hk, ?_, ?_, ?_⟩
        · intro j hj
          cases j with
          | zero => simp
          | succ j =>
            simpa using hbefore j (Nat.lt_of_succ_lt_succ hj)
        · rw [hset]
          rfl
        · simpa using hsum

theorem hasMessage_iff_scan (s : MessageFederateManager) :
    hasMessage s = true ↔ getMessageScan s.messageQueues ≠ none := by
  rw [Ne, getMessageScan_none]
  simp only [hasMessage, List.any_eq_true, Bool.not_eq_true', List.isEmpty_eq_false]
  constructor
  · rintro ⟨q, hq, hne⟩ hall
    exact hne (hall q hq)
  · intro h
    by_contra hc
    apply h
    intro q hq
    by_contra hne
    exact hc ⟨q, hq, hne⟩

/-- C17: receive-any picks the lowest-indexed non-empty queue. In every manager
state, `getMessage ()` returns a message if and only if `hasMessage ()` is
true, which holds if and only if `receiveCount ()` is positive. A returned
message is the head of a queue `k` all of whose predecessors are empty; the
call pops that head, leaves every other queue and the rest of the manager
unchanged, and lowers `receiveCount ()` by exactly one. When it returns empty
the state is unchanged. -/
theorem getMessage_lowest_index (s : MessageFederateManager) :
    ((getMessage s).1.isSome = true ↔ hasMessage s = true) ∧
    (hasMessage s = true ↔ 0 < receiveCount s) ∧
    (∀ m s1, getMessage s = (some m, s1) →
      ∃ k rest, s.messageQueues[k]? = some (m :: rest) ∧
        (∀ j, j < k → s.messageQueues[j]? = some []) ∧
        s1 = { s with messageQueues := s.messageQueues.set k rest } ∧
        (∀ j, j ≠ k → s1.messageQueues[j]? = s.messageQueues[j]?) ∧
        receiveCount s1 + 1 = receiveCount s) ∧
    (∀ s1, getMessage s = (none, s1) → s1 = s) := by
  refine ⟨?_, ?_, ?_, ?_⟩
  · rw [hasMessage_iff_scan]
    unfold getMessage
    cases hsc : getMessageScan s.messageQueues with
    | none => simp
    | some r => simp
  · rw [hasMessage_iff_scan, receiveCount_eq_sum, Ne, getMessageScan_none]
    constructor
    · intro h
      by_contra hc
      apply h
      intro q hq
      have hz : (s.messageQueues.map List.length).sum = 0 := by omega
      rw [List.sum_eq_zero_iff] at hz
      exact List.length_eq_zero.mp (hz _ (List.mem_map_of_mem _ hq))
    · intro h hall
      have hz : (s.messageQueues.map List.length).sum = 0 := by
        rw [List.sum_eq_zero_iff]
        intro n hn
        rw [List.mem_map] at hn
        obtain ⟨q, hq, hqn⟩ := hn
        rw [← hqn, hall q hq]
        rfl
      omega
  · intro m s1 h
    unfold getMessage at h
    cases hsc : getMessageScan s.messageQueues with
    | none =>
      rw [hsc] at h
      simp at h
    | some r =>
      obtain ⟨m1, Q1⟩ := r
      rw [hsc] at h
      simp only [Prod.mk.injEq, Option.some.injEq] at h
      obtain ⟨hm, hs1⟩ := h
      subst hm
      obtain ⟨k, rest, hk, hbefore, hset, hsum⟩ := getMessageScan_some _ _ _ hsc
      subst hset
      refine ⟨k, rest, hk, hbefore, hs1.symm, ?_, ?_⟩
      · intro j hj
        rw [← hs1]
        show (s.messageQueues.set k rest)[j]? = _
        rw [List.getElem?_set]
        simp [Ne.symm hj]
      · rw [← hs1, receiveCount_eq_sum, receiveCount_eq_sum]
        exact hsum
  · intro s1 h
    unfold getMessage at h
    cases hsc : getMessageScan s.messageQueues with
    | none =>
      rw [hsc] at h
      simp only [Prod.mk.injEq, true_and] at h
      exact h.symm
    | some r =>
      rw [hsc] at h
      simp at h

/-- Witness of C17: with queue 0 empty and two messages on queue 1,
`getMessage ()` returns the head of queue 1. -/
theorem getMessage_lowest_index_witness :
    ∃ k rest, twoEndpointManager.messageQueues[k]? = some (pingFirst :: rest) ∧
      (∀ j, j < k → twoEndpointManager.messageQueues[j]? = some []) ∧
      { twoEndpointManager with messageQueues := [[], [pingSecond]] }
        = { twoEndpointManager with messageQueues := twoEndpointManager.messageQueues.set k rest } ∧
      (∀ j, j ≠ k →
        ({ twoEndpointManager with messageQueues := [[], [pingSecond]] } :
          MessageFederateManager).messageQueues[j]? = twoEndpointManager.messageQueues[j]?) ∧
      receiveCount { twoEndpointManager with messageQueues := [[], [pingSecond]] } + 1
        = receiveCount twoEndpointManager :=
  (getMessage_lowest_index twoEndpointManager).2.2.1 pingFirst
    { twoEndpointManager with messageQueues := [[], [pingSecond]] } (by decide)

/-- C18: `getEndpointId` has no distinct not-found result. For every name that
is not registered `getEndpointId (name)` returns id 0; in a manager with at
least one endpoint (whose records carry their index as id) that is the id of
the first registered endpoint `e`, so the two different names `e.name` and
`name` get the same id from `getEndpointId`. -/
theorem getEndpointId_not_found (s : MessageFederateManager) (name : String)
    (hnot : s.local_endpoints.findName name = none) :
    getEndpointId s name = 0 ∧
    (IdsDense s → ∀ e, s.local_endpoints.dataStorage[0]? = some e →
      e.id = 0 ∧ e.name ≠ name ∧ getEndpointId s e.name = 0 ∧
      getEndpointId s e.name = getEndpointId s name) := by
  have h0 : getEndpointId s name = 0 := by
    simp [getEndpointId, hnot]
  refine ⟨h0, ?_⟩
  intro hd e he
  have hid : e.id = 0 := id_of_getElem? s hd 0 e he
  have hmem : e ∈ s.local_endpoints.dataStorage := List.getElem?_mem he
  have hne : e.name ≠ name := by
    intro hc
    unfold DualMappedVector.findName at hnot
    rw [List.find?_eq_none] at hnot
    exact hnot e hmem (by simp [hc])
  have hfind : s.local_endpoints.findName e.name = some e := by
    unfold DualMappedVector.findName
    cases hds : s.local_endpoints.dataStorage with
    | nil =>
      rw [hds] at he
      simp at he
    | cons x xs =>
      rw [hds] at he
      simp only [List.getElem?_cons_zero, Option.some.injEq] at he
      subst he
      simp [List.find?]
  have he0 : getEndpointId s e.name = 0 := by
    simp [getEndpointId, hfind, hid]
  exact ⟨hid, hne, he0, by rw [he0, h0]⟩

/-- Witness of C18: on the initialized example manager, whose first endpoint is
`"ep"`, the unregistered name `"nobody"` gets id 0 as well. -/
theorem getEndpointId_not_found_witness :
    getEndpointId readyManager "nobody" = 0 ∧
    getEndpointId readyManager "ep" = 0 ∧ "ep" ≠ "nobody" := by
  have h := getEndpointId_not_found readyManager "nobody" (by decide)
  obtain ⟨-, hne, h0, -⟩ := h.2 (by decide) ⟨"ep", "t", 0, 7, -1⟩ (by decide)
  exact ⟨h.1, h0, hne⟩

/-- C13, the code at the failing input: on the order list `[1, 2, 3]`,
`removeOrderedMessage (1)` finds the 1 at position 0 and erases the element
after it, leaving `[1, 3]`; removing the last occurrence of 1 would leave
`[2, 3]`. On the same list `removeOrderedMessage (2)` leaves `[1, 2]`, while
the back element is popped and an absent value leaves the list unchanged. -/
theorem removeOrderedMessage_erases_successor :
    removeOrderedMessage orderManager 1
      = Except.ok { orderManager with messageOrder := [1, 3] } ∧
    ([1, 3] : List Nat) ≠ [2, 3] ∧
    removeOrderedMessage orderManager 2
      = Except.ok { orderManager with messageOrder := [1, 2] } ∧
    removeOrderedMessage orderManager 3
      = Except.ok { orderManager with messageOrder := [1, 2] } ∧
    removeOrderedMessage orderManager 7 = Except.ok orderManager := by
  decide

/-! ### The guarded cell -/

/-- The store/read half of the guarded-cell round trip: for every cell whose
lock is free and every value `v`, `store (v)` returns, and in the cell it
leaves `read (f)` returns `f (v)` and leaves the cell as it is. -/
theorem ordered_guarded_store_read {T R : Type} (c : ordered_guarded T) (v : T) (f : T → R)
    (hfree : c.m_mutex = ⟨false, 0⟩) :
    ∃ c1, c.store v = some c1 ∧ c1.m_obj = v ∧ c1.read f = some (f v, c1) := by
  refine ⟨{ m_obj := v, m_mutex := ⟨false, 0⟩ }, ?_, rfl, ?_⟩
  · simp [ordered_guarded.store, SharedMutex.lock, SharedMutex.unlock, hfree]
  · simp [ordered_guarded.read, SharedMutex.lock_shared, SharedMutex.unlock_shared]

/-- A call of `store` on a cell whose lock is held does not return. -/
theorem ordered_guarded_store_waits {T : Type} (c : ordered_guarded T) (v : T)
    (hheld : c.m_mutex.exclusive = true ∨ 0 < c.m_mutex.shared) : c.store v = none := by
  have hn : ¬ (c.m_mutex.exclusive = false ∧ c.m_mutex.shared = 0) := by
    rintro ⟨h1, h2⟩
    rcases hheld with h | h
    · rw [h1] at h
      exact Bool.noConfusion h
    · omega
  simp [ordered_guarded.store, SharedMutex.lock, hn]

/-- C14, the code at the failing input: on a cell holding 1 with its lock
free, `store (5)` returns and leaves 5 in the cell, and `read` of the successor
function then returns 6 and leaves the cell as it is; `load ()` yields no
copy, for every cell, because the call `shared_lock ()` in its body names
nothing. The member that takes the shared handle, `lock_shared ()`, yields the
stored 5. -/
theorem ordered_guarded_load_yields_nothing :
    (ordered_guarded.new 1).store 5 = some (ordered_guarded.new 5) ∧
    (ordered_guarded.new 5).read Nat.succ = some (6, ordered_guarded.new 5) ∧
    (ordered_guarded.new 5).load = none ∧
    (∀ c : ordered_guarded Nat, c.load = none) ∧
    (ordered_guarded.new 5).lock_shared = some (5, ⟨5, ⟨false, 1⟩⟩) := by
  refine ⟨by decide, by decide, rfl, fun _ => rfl, by decide⟩

/-! ### Subscriptions -/

theorem mem_mapEmplace {κ ν : Type} [DecidableEq κ] (m : List (κ × ν)) (k : κ) (v : ν)
    (p : κ × ν) (hp : p ∈ mapEmplace m k v) : p ∈ m ∨ p = (k, v) := by
  unfold mapEmplace at hp
  cases hl : m.lookup k with
  | some x =>
    rw [hl] at hp
    exact Or.inl hp
  | none =>
    rw [hl] at hp
    simpa using hp

theorem dispatch_exact (s : MessageFederateManager) (i : Nat) (id : endpoint_id_t) (t : Time)
    (e : endpoint_info) (he : s.local_endpoints.dataStorage[i]? = some e)
    (hcb : CallbacksValid s) :
    dispatch s i id t t = Except.ok { s with callbackLog := s.callbackLog ++
      (match chosenCallback s i with
       | some cb => [⟨cb, id, t, s.messageQueues⟩]
       | none => []) } := by
  have hmem : e ∈ s.local_endpoints.dataStorage := List.getElem?_mem he
  simp only [dispatch, index_of_getElem? _ _ _ he, chosenCallback, he]
  by_cases h1 : 0 ≤ e.callbackIndex
  · have hlt : e.callbackIndex.toNat < s.callbacks.length := by
      have := hcb.2 e hmem
      omega
    obtain ⟨cb, hcbk⟩ := exists_getElem?_of_lt s.callbacks _ hlt
    simp only [if_pos h1, index_of_getElem? _ _ _ hcbk, invoke, hcbk]
  · by_cases h2 : 0 ≤ s.allCallbackIndex
    · have hlt : s.allCallbackIndex.toNat < s.callbacks.length := by
        have := hcb.1
        omega
      obtain ⟨ac, hac⟩ := exists_getElem?_of_lt s.callbacks _ hlt
      simp only [if_neg h1, if_pos h2, index_of_getElem? _ _ _ hac, invoke, hac]
    · simp only [if_neg h1, if_neg h2, List.append_nil]

theorem drainedEvents_cons_none (d : DualMappedVector) (h : handle_id_t) (m : Message)
    (msgs : List (handle_id_t × Message)) (hf : d.findHandle h = none) :
    drainedEvents d ((h, m) :: msgs) = drainedEvents d msgs := by
  simp [drainedEvents, List.filterMap_cons, hf]

theorem drainedEvents_cons_some (d : DualMappedVector) (h : handle_id_t) (m : Message)
    (msgs : List (handle_id_t × Message)) (fid : endpoint_info) (hf : d.findHandle h = some fid) :
    drainedEvents d ((h, m) :: msgs) = (fid.id, m) :: drainedEvents d msgs := by
  simp [drainedEvents, List.filterMap_cons, hf]

theorem expectedCallbacks_cons_none (s : MessageFederateManager) (em : Nat × Message)
    (events : List (Nat × Message)) (hc : chosenCallback s em.1 = none) :
    expectedCallbacks s (em :: events) = expectedCallbacks s events := by
  simp [expectedCallbacks, List.filterMap_cons, hc]

theorem expectedCallbacks_cons_some (s : MessageFederateManager) (em : Nat × Message)
    (events : List (Nat × Message)) (cb : Callback) (hc : chosenCallback s em.1 = some cb) :
    expectedCallbacks s (em :: events) = (em, cb) :: expectedCallbacks s events := by
  simp [expectedCallbacks, List.filterMap_cons, hc]

/-- The callbacks the message loop of `updateTime` invokes on an initialized
manager: one per message it puts on a queue for which a callback is due, in
order, each after the message is on the queue. -/
theorem drainLoop_log (n : Nat) : ∀ s s1 : MessageFederateManager, Initialized s →
    drainLoop n s = Except.ok s1 →
    ∃ L, s1.callbackLog = s.callbackLog ++ L ∧
      List.Forall₂ (CallbackMatches s.CurrentTime) L
        (expectedCallbacks s
          (drainedEvents s.local_endpoints (s.coreObject.pendingAny.take n))) := by
  induction n with
  | zero =>
    intro s s1 _ hrun
    simp only [drainLoop, Except.ok.injEq] at hrun
    subst hrun
    exact ⟨[], by simp, by simp [drainedEvents, expectedCallbacks]⟩
  | succ n ih =>
    intro s s1 hs hrun
    cases hp : s.coreObject.pendingAny with
    | nil =>
      simp only [drainLoop, Core.receiveAny, hp, Except.ok.injEq] at hrun
      subst hrun
      exact ⟨[], by simp, by simp [drainedEvents, expectedCallbacks]⟩
    | cons hm rest =>
      obtain ⟨h, m⟩ := hm
      cases hf : s.local_endpoints.findHandle h with
      | none =>
        have hs1 : Initialized
            { s with
              coreObject := { s.coreObject with
                pendingAny := rest, countAny := s.coreObject.countAny - 1 } } := hs
        simp only [drainLoop, Core.receiveAny, hp, hf] at hrun
        obtain ⟨L, hlog, hall⟩ := ih _ s1 hs1 hrun
        refine ⟨L, hlog, ?_⟩
        rw [List.take_succ_cons, drainedEvents_cons_none _ _ _ _ hf]
        exact hall
      | some fid =>
        obtain ⟨hfid, hlt, -⟩ := findHandle_dense s hs.1 h fid hf
        have hltq : fid.id < s.messageQueues.length := by
          rw [hs.2.1]; exact hlt
        obtain ⟨q, hq⟩ := exists_getElem?_of_lt s.messageQueues _ hltq
        have henq := enqueue_eq
          { s with
            coreObject := { s.coreObject with
              pendingAny := rest, countAny := s.coreObject.countAny - 1 } }
          fid.id m q hq
        have hs2 : Initialized
            { s with
              coreObject := { s.coreObject with
                pendingAny := rest, countAny := s.coreObject.countAny - 1 }
              messageQueues := s.messageQueues.set fid.id (q ++ [m]) } := by
          refine ⟨hs.1, ?_, hs.2.2.1, hs.2.2.2⟩
          show (s.messageQueues.set fid.id (q ++ [m])).length = s.local_endpoints.size
          rw [List.length_set]
          exact hs.2.1
        have hdisp := dispatch_exact
          { s with
            coreObject := { s.coreObject with
              pendingAny := rest, countAny := s.coreObject.countAny - 1 }
            messageQueues := s.messageQueues.set fid.id (q ++ [m]) }
          fid.id fid.id s.CurrentTime fid hfid hs2.2.2.1
        have hlast : ((s.messageQueues.set fid.id (q ++ [m]))[fid.id]?).bind List.getLast?
            = some m := by
          simp [List.getElem?_set, hltq]
        simp only [drainLoop, Core.receiveAny, hp, hf] at hrun
        erw [henq] at hrun
        simp only [] at hrun
        erw [hdisp] at hrun
        simp only [] at hrun
        rw [List.take_succ_cons, drainedEvents_cons_some _ _ _ _ _ hf]
        cases hch : chosenCallback s fid.id with
        | none =>
          have hch2 : chosenCallback
              { s with
                coreObject := { s.coreObject with
                  pendingAny := rest, countAny := s.coreObject.countAny - 1 }
                messageQueues := s.messageQueues.set fid.id (q ++ [m]) } fid.id = none := hch
          rw [hch2] at hrun
          have hs3 : Initialized
              { s with
                coreObject := { s.coreObject with
                  pendingAny := rest, countAny := s.coreObject.countAny - 1 }
                messageQueues := s.messageQueues.set fid.id (q ++ [m])
                callbackLog := s.callbackLog ++ [] } := hs2
          obtain ⟨L, hlog, hall⟩ := ih _ s1 hs3 hrun
          refine ⟨L, ?_, ?_⟩
          · rw [hlog]
            simp
          · rw [expectedCallbacks_cons_none s _ _ hch]
            exact hall
        | some cb =>
          have hch2 : chosenCallback
              { s with
                coreObject := { s.coreObject with
                  pendingAny := rest, countAny := s.coreObject.countAny - 1 }
                messageQueues := s.messageQueues.set fid.id (q ++ [m]) } fid.id = some cb := hch
          rw [hch2] at hrun
          have hs3 : Initialized
              { s with
                coreObject := { s.coreObject with
                  pendingAny := rest, countAny := s.coreObject.countAny - 1 }
                messageQueues := s.messageQueues.set fid.id (q ++ [m])
                callbackLog := s.callbackLog ++ [⟨cb, fid.id, s.CurrentTime,
                  s.messageQueues.set fid.id (q ++ [m])⟩] } := hs2
          obtain ⟨L, hlog, hall⟩ := ih _ s1 hs3 hrun
          refine ⟨⟨cb, fid.id, s.CurrentTime, s.messageQueues.set fid.id (q ++ [m])⟩ :: L,
            ?_, ?_⟩
          · rw [hlog]
            simp
          · rw [expectedCallbacks_cons_some s _ _ cb hch]
            exact List.Forall₂.cons ⟨rfl, rfl, rfl, hlast⟩ hall

theorem valueEvents_cons_none (s : MessageFederateManager) (t : Time) (handle : handle_id_t)
    (handles : List handle_id_t) (hl : s.subHandleLookup.lookup handle = none) :
    valueEvents s t (handle :: handles) = valueEvents s t handles := by
  simp [valueEvents, List.filterMap_cons, hl]

theorem valueEvents_cons_some (s : MessageFederateManager) (t : Time) (handle : handle_id_t)
    (handles : List handle_id_t) (sfnd : endpoint_id_t × String) (e : endpoint_info)
    (hl : s.subHandleLookup.lookup handle = some sfnd)
    (he : s.local_endpoints.dataStorage[sfnd.1]? = some e) :
    valueEvents s t (handle :: handles)
      = (sfnd.1, { source := sfnd.2, dest := e.name, original_source := sfnd.2,
                   data := s.coreObject.getValue handle, time := t })
        :: valueEvents s t handles := by
  simp [valueEvents, List.filterMap_cons, hl, he]

/-- The callbacks the subscription loop of `updateTime` invokes on an
initialized manager whose current time is `newTime`: one per pseudo-message for
which a callback is due, in order, each after the message is on the queue. -/
theorem valueLoop_log (newTime : Time) (handles : List handle_id_t) :
    ∀ s s1 : MessageFederateManager, Initialized s → s.CurrentTime = newTime →
    valueLoop newTime handles s = Except.ok s1 →
    ∃ L, s1.callbackLog = s.callbackLog ++ L ∧
      List.Forall₂ (CallbackMatches newTime) L
        (expectedCallbacks s (valueEvents s newTime handles)) := by
  induction handles with
  | nil =>
    intro s s1 _ _ hrun
    simp only [valueLoop, Except.ok.injEq] at hrun
    subst hrun
    exact ⟨[], by simp, by simp [valueEvents, expectedCallbacks]⟩
  | cons handle handles ih =>
    intro s s1 hs ht hrun
    subst ht
    cases hl : s.subHandleLookup.lookup handle with
    | none =>
      simp only [valueLoop, hl] at hrun
      obtain ⟨L, hlog, hall⟩ := ih s s1 hs rfl hrun
      refine ⟨L, hlog, ?_⟩
      rw [valueEvents_cons_none s _ _ _ hl]
      exact hall
    | some sfnd =>
      obtain ⟨k1, hmem⟩ := mem_of_lookup handle sfnd s.subHandleLookup hl
      have hlt : sfnd.1 < s.local_endpoints.size := hs.2.2.2 _ hmem
      obtain ⟨e, he⟩ := exists_getElem?_of_lt s.local_endpoints.dataStorage _ hlt
      have hltq : sfnd.1 < s.messageQueues.length := by
        rw [hs.2.1]; exact hlt
      obtain ⟨q, hq⟩ := exists_getElem?_of_lt s.messageQueues _ hltq
      have henq := enqueue_eq s sfnd.1
        { source := sfnd.2, dest := e.name, original_source := sfnd.2,
          data := s.coreObject.getValue handle, time := s.CurrentTime } q hq
      have hs2 : Initialized
          { s with
            messageQueues := s.messageQueues.set sfnd.1
              (q ++ [{ source := sfnd.2, dest := e.name, original_source := sfnd.2,
                       data := s.coreObject.getValue handle, time := s.CurrentTime }]) } := by
        refine ⟨hs.1, ?_, hs.2.2.1, hs.2.2.2⟩
        show (s.messageQueues.set sfnd.1 _).length = s.local_endpoints.size
        rw [List.length_set]
        exact hs.2.1
      have hdisp := dispatch_exact
        { s with
          messageQueues := s.messageQueues.set sfnd.1
            (q ++ [{ source := sfnd.2, dest := e.name, original_source := sfnd.2,
                     data := s.coreObject.getValue handle, time := s.CurrentTime }]) }
        sfnd.1 sfnd.1 s.CurrentTime e he hs2.2.2.1
      have hlast : ((s.messageQueues.set sfnd.1
            (q ++ [{ source := sfnd.2, dest := e.name, original_source := sfnd.2,
                     data := s.coreObject.getValue handle,
                     time := s.CurrentTime }]))[sfnd.1]?).bind List.getLast?
          = some { source := sfnd.2, dest := e.name, original_source := sfnd.2,
                   data := s.coreObject.getValue handle, time := s.CurrentTime } := by
        simp [List.getElem?_set, hltq]
      simp only [valueLoop, hl, index_of_getElem? _ _ _ he] at hrun
      erw [henq] at hrun
      simp only [] at hrun
      erw [hdisp] at hrun
      simp only [] at hrun
      rw [valueEvents_cons_some s _ _ _ sfnd e hl he]
      cases hch : chosenCallback s sfnd.1 with
      | none =>
        have hch2 : chosenCallback
            { s with
              messageQueues := s.messageQueues.set sfnd.1
                (q ++ [{ source := sfnd.2, dest := e.name, original_source := sfnd.2,
                         data := s.coreObject.getValue handle, time := s.CurrentTime }]) }
            sfnd.1 = none := hch
        rw [hch2] at hrun
        have hs3 : Initialized
            { s with
              messageQueues := s.messageQueues.set sfnd.1
                (q ++ [{ source := sfnd.2, dest := e.name, original_source := sfnd.2,
                         data := s.coreObject.getValue handle, time := s.CurrentTime }])
              callbackLog := s.callbackLog ++ [] } := hs2
        obtain ⟨L, hlog, hall⟩ := ih _ s1 hs3 rfl hrun
        refine ⟨L, ?_, ?_⟩
        · rw [hlog]
          simp
        · rw [expectedCallbacks_cons_none s _ _ hch]
          exact hall
      | some cb =>
        have hch2 : chosenCallback
            { s with
              messageQueues := s.messageQueues.set sfnd.1
                (q ++ [{ source := sfnd.2, dest := e.name, original_source := sfnd.2,
                         data := s.coreObject.getValue handle, time := s.CurrentTime }]) }
            sfnd.1 = some cb := hch
        rw [hch2] at hrun
        have hs3 : Initialized
            { s with
              messageQueues := s.messageQueues.set sfnd.1
                (q ++ [{ source := sfnd.2, dest := e.name, original_source := sfnd.2,
                         data := s.coreObject.getValue handle, time := s.CurrentTime }])
              callbackLog := s.callbackLog ++ [⟨cb, sfnd.1, s.CurrentTime,
                s.messageQueues.set sfnd.1
                  (q ++ [{ source := sfnd.2, dest := e.name, original_source := sfnd.2,
                           data := s.coreObject.getValue handle,
                           time := s.CurrentTime }])⟩] } := hs2
        obtain ⟨L, hlog, hall⟩ := ih _ s1 hs3 rfl hrun
        refine ⟨⟨cb, sfnd.1, s.CurrentTime, s.messageQueues.set sfnd.1
            (q ++ [{ source := sfnd.2, dest := e.name, original_source := sfnd.2,
                     data := s.coreObject.getValue handle, time := s.CurrentTime }])⟩ :: L,
          ?_, ?_⟩
        · rw [hlog]
          simp
        · rw [expectedCallbacks_cons_some s _ _ cb hch]
          exact List.Forall₂.cons ⟨rfl, rfl, rfl, hlast⟩ hall

theorem routed_eq_events (d : DualMappedVector) (i : Nat) (msgs : List (handle_id_t × Message)) :
    routed d i msgs = ((drainedEvents d msgs).filter (fun em => em.1 == i)).map Prod.snd := by
  induction msgs with
  | nil => rfl
  | cons p msgs ih =>
    obtain ⟨h, m⟩ := p
    rw [routed_cons, ih]
    cases hf : d.findHandle h with
    | none =>
      rw [drainedEvents_cons_none d h m msgs hf]
      simp [routesTo, hf]
    | some fid =>
      rw [drainedEvents_cons_some d h m msgs fid hf]
      by_cases hi : fid.id = i
      · simp [routesTo, hf, hi, List.filter_cons]
      · have hi2 : (fid.id == i) = false := by simpa using hi
        simp [routesTo, hf, hi2, List.filter_cons]

theorem synthesized_eq_events (s : MessageFederateManager) (t : Time) (i : Nat)
    (handles : List handle_id_t) :
    synthesized s t i handles
      = ((valueEvents s t handles).filter (fun em => em.1 == i)).map Prod.snd := by
  induction handles with
  | nil => rfl
  | cons handle handles ih =>
    unfold synthesized at ih ⊢
    rw [List.filterMap_cons]
    cases hl : s.subHandleLookup.lookup handle with
    | none =>
      rw [valueEvents_cons_none s t handle handles hl]
      simp only [synthesizedFor, hl]
      exact ih
    | some sfnd =>
      cases he : s.local_endpoints.dataStorage[sfnd.1]? with
      | none =>
        have hv : valueEvents s t (handle :: handles) = valueEvents s t handles := by
          simp [valueEvents, List.filterMap_cons, hl, he]
        rw [hv]
        have hsf : synthesizedFor s t i handle = none := by
          simp only [synthesizedFor, hl, he]
          split <;> rfl
        rw [hsf]
        exact ih
      | some e =>
        rw [valueEvents_cons_some s t handle handles sfnd e hl he]
        by_cases hi : sfnd.1 = i
        · have hsf : synthesizedFor s t i handle
              = some { source := sfnd.2, dest := e.name, original_source := sfnd.2,
                       data := s.coreObject.getValue handle, time := t } := by
            simp only [synthesizedFor, hl, hi, if_true]
            rw [← hi, he]
          rw [hsf]
          simp only [List.filter_cons, hi, beq_self_eq_true, if_true, List.map_cons]
          rw [ih]
        · have hsf : synthesizedFor s t i handle = none := by
            simp only [synthesizedFor, hl, hi, if_false]
          have hi2 : (sfnd.1 == i) = false := by simpa using hi
          rw [hsf]
          simp only [List.filter_cons, hi2]
          exact ih

theorem expectedCallbacks_append (s : MessageFederateManager) (a b : List (Nat × Message)) :
    expectedCallbacks s (a ++ b) = expectedCallbacks s a ++ expectedCallbacks s b := by
  simp [expectedCallbacks, List.filterMap_append]

/-- The callbacks one `updateTime` invokes on an initialized manager. -/
theorem updateTime_log (s s1 : MessageFederateManager) (newTime oldTime : Time)
    (hs : Initialized s) (hrun : updateTime s newTime oldTime = Except.ok s1) :
    ∃ L, s1.callbackLog = s.callbackLog ++ L ∧
      List.Forall₂ (CallbackMatches newTime) L
        (expectedCallbacks s (enqueuedBy s newTime)) := by
  have hs0 : Initialized { s with CurrentTime := newTime } := hs
  obtain ⟨Q1, L1, hrun1, hlen1, -⟩ :=
    drainLoop_spec s.coreObject.countAny { s with CurrentTime := newTime } hs0
  obtain ⟨L1a, hlog1, hall1⟩ := drainLoop_log _ _ _ hs0 hrun1
  simp only [updateTime, Core.receiveCountAny] at hrun
  erw [hrun1] at hrun
  simp only [Core.getValueUpdates] at hrun
  unfold enqueuedBy
  rw [expectedCallbacks_append]
  by_cases hsub : s.hasSubscriptions = true
  · rw [if_pos hsub] at hrun
    have hs1 : Initialized
        { s with
          CurrentTime := newTime
          coreObject := { s.coreObject with
            pendingAny := s.coreObject.pendingAny.drop s.coreObject.countAny,
            countAny := s.coreObject.countAny
              - min s.coreObject.countAny s.coreObject.pendingAny.length }
          messageQueues := Q1
          callbackLog := s.callbackLog ++ L1 } := by
      refine ⟨hs.1, ?_, hs.2.2.1, hs.2.2.2⟩
      show Q1.length = s.local_endpoints.size
      rw [hlen1]
      exact hs.2.1
    obtain ⟨L2, hlog2, hall2⟩ := valueLoop_log newTime s.coreObject.valueUpdates _ s1 hs1 rfl hrun
    refine ⟨L1a ++ L2, ?_, ?_⟩
    · rw [hlog2]
      erw [hlog1]
      simp [List.append_assoc]
    · rw [if_pos hsub]
      exact List.rel_append hall1 hall2
  · rw [if_neg hsub] at hrun
    injection hrun with hrun
    refine ⟨L1a, ?_, ?_⟩
    · rw [← hrun]
      exact hlog1
    · rw [if_neg hsub]
      simpa [expectedCallbacks] using hall1

/-- C15: callback dispatch in `updateTime (newTime, _)`. On every initialized
manager the call returns normally, puts the messages `enqueuedBy` on the queues
(each queue receives those addressed to its endpoint, in order), and invokes
callbacks as follows: for every message enqueued on an endpoint `e` for which
a callback is due (`chosenCallback`: the per-endpoint callback whenever `e` has
one, the all-endpoints callback only when `e` has none and one is registered)
exactly one callback, the due one, is invoked with arguments `(e, newTime)`,
in the order of the messages, and when it runs the message is already the last
one on `e`'s queue; for a message on an endpoint with neither callback no
callback is invoked. -/
theorem updateTime_callbacks (s : MessageFederateManager) (newTime oldTime : Time)
    (hs : Initialized s) :
    ∃ s1 L, updateTime s newTime oldTime = Except.ok s1 ∧
      (∀ i q, s.messageQueues[i]? = some q →
        s1.messageQueues[i]? = some (q
          ++ ((enqueuedBy s newTime).filter (fun em => em.1 == i)).map Prod.snd)) ∧
      s1.callbackLog = s.callbackLog ++ L ∧
      List.Forall₂ (CallbackMatches newTime) L (expectedCallbacks s (enqueuedBy s newTime)) ∧
      (∀ e ep, s.local_endpoints.dataStorage[e]? = some ep →
        (0 ≤ ep.callbackIndex →
          chosenCallback s e = s.callbacks[ep.callbackIndex.toNat]?) ∧
        (ep.callbackIndex < 0 → 0 ≤ s.allCallbackIndex →
          chosenCallback s e = s.callbacks[s.allCallbackIndex.toNat]?) ∧
        (ep.callbackIndex < 0 → s.allCallbackIndex < 0 → chosenCallback s e = none)) := by
  obtain ⟨Q, L0, hrun, -, hQ⟩ := updateTime_spec s newTime oldTime hs
  obtain ⟨L, hlog, hall⟩ := updateTime_log s _ newTime oldTime hs hrun
  refine ⟨_, L, hrun, ?_, hlog, hall, ?_⟩
  · intro i q hq
    show Q[i]? = _
    rw [hQ i, hq]
    simp only [Option.map_some', enqueuedBy, List.filter_append, List.map_append,
      routed_eq_events, List.append_assoc]
    by_cases hsub : s.hasSubscriptions = true
    · simp only [if_pos hsub, synthesized_eq_events]
    · simp only [if_neg hsub, List.filter_nil, List.map_nil]
  · intro e ep he
    refine ⟨?_, ?_, ?_⟩
    · intro h1
      simp only [chosenCallback, he, if_pos h1]
    · intro h1 h2
      simp only [chosenCallback, he, if_neg (Int.not_le.mpr h1), if_pos h2]
    · intro h1 h2
      simp only [chosenCallback, he, if_neg (Int.not_le.mpr h1), if_neg (Int.not_le.mpr h2)]

/-- Witness of C15: endpoint 0 has no callback of its own, endpoint 1 has
callback 40, callback 50 is registered for all endpoints; one message arrives
for each endpoint. -/
theorem updateTime_callbacks_witness :
    ∃ s1 L, updateTime callbackManager 3 0 = Except.ok s1 ∧
      (∀ i q, callbackManager.messageQueues[i]? = some q →
        s1.messageQueues[i]? = some (q
          ++ ((enqueuedBy callbackManager 3).filter (fun em => em.1 == i)).map Prod.snd)) ∧
      s1.callbackLog = callbackManager.callbackLog ++ L ∧
      List.Forall₂ (CallbackMatches 3) L
        (expectedCallbacks callbackManager (enqueuedBy callbackManager 3)) ∧
      (∀ e ep, callbackManager.local_endpoints.dataStorage[e]? = some ep →
        (0 ≤ ep.callbackIndex →
          chosenCallback callbackManager e = callbackManager.callbacks[ep.callbackIndex.toNat]?) ∧
        (ep.callbackIndex < 0 → 0 ≤ callbackManager.allCallbackIndex →
          chosenCallback callbackManager e
            = callbackManager.callbacks[callbackManager.allCallbackIndex.toNat]?) ∧
        (ep.callbackIndex < 0 → callbackManager.allCallbackIndex < 0 →
          chosenCallback callbackManager e = none)) :=
  updateTime_callbacks callbackManager 3 0 (by decide)

/-! ### Reachable states and callback registration -/

theorem sameTables_refl (s : MessageFederateManager) : SameTables s s :=
  ⟨rfl, rfl, rfl, rfl, rfl, rfl⟩

theorem sameTables_trans (s s1 s2 : MessageFederateManager) (h1 : SameTables s s1)
    (h2 : SameTables s1 s2) : SameTables s s2 :=
  ⟨h2.1.trans h1.1, h2.2.1.trans h1.2.1, h2.2.2.1.trans h1.2.2.1,
    h2.2.2.2.1.trans h1.2.2.2.1, h2.2.2.2.2.1.trans h1.2.2.2.2.1,
    h2.2.2.2.2.2.trans h1.2.2.2.2.2⟩

theorem enqueue_frame (s s1 : MessageFederateManager) (i : Nat) (m : Message)
    (h : enqueue s i m = Except.ok s1) : SameTables s s1 := by
  unfold enqueue at h
  cases hx : index s.messageQueues i with
  | error f => rw [hx] at h; exact Except.noConfusion h
  | ok q =>
    rw [hx] at h
    injection h with h
    rw [← h]
    exact ⟨rfl, rfl, rfl, rfl, rfl, List.length_set _ _ _⟩

theorem dispatch_frame (s s1 : MessageFederateManager) (i : Nat) (id : endpoint_id_t)
    (tOwn tAll : Time) (h : dispatch s i id tOwn tAll = Except.ok s1) : SameTables s s1 := by
  unfold dispatch at h
  cases hx : index s.local_endpoints.dataStorage i with
  | error f => rw [hx] at h; exact Except.noConfusion h
  | ok e =>
    rw [hx] at h
    simp only [] at h
    by_cases h1 : 0 ≤ e.callbackIndex
    · rw [if_pos h1] at h
      cases hy : index s.callbacks e.callbackIndex.toNat with
      | error f => rw [hy] at h; exact Except.noConfusion h
      | ok cb =>
        rw [hy] at h
        injection h with h
        rw [← h]
        exact sameTables_refl s
    · rw [if_neg h1] at h
      by_cases h2 : 0 ≤ s.allCallbackIndex
      · rw [if_pos h2] at h
        cases hy : index s.callbacks s.allCallbackIndex.toNat with
        | error f => rw [hy] at h; exact Except.noConfusion h
        | ok cb =>
          rw [hy] at h
          injection h with h
          rw [← h]
          exact sameTables_refl s
      · rw [if_neg h2] at h
        injection h with h
        rw [← h]
        exact sameTables_refl s

theorem drainLoop_frame (n : Nat) : ∀ s s1 : MessageFederateManager,
    drainLoop n s = Except.ok s1 → SameTables s s1 := by
  induction n with
  | zero =>
    intro s s1 h
    simp only [drainLoop, Except.ok.injEq] at h
    rw [← h]
    exact sameTables_refl s
  | succ n ih =>
    intro s s1 h
    cases hp : s.coreObject.pendingAny with
    | nil =>
      simp only [drainLoop, Core.receiveAny, hp, Except.ok.injEq] at h
      rw [← h]
      exact sameTables_refl s
    | cons hm rest =>
      obtain ⟨hd, m⟩ := hm
      cases hf : s.local_endpoints.findHandle hd with
      | none =>
        simp only [drainLoop, Core.receiveAny, hp, hf] at h
        have h3 := ih _ s1 h
        exact h3
      | some fid =>
        simp only [drainLoop, Core.receiveAny, hp, hf] at h
        cases henq : enqueue
            { s with
              coreObject := { s.coreObject with
                pendingAny := rest, countAny := s.coreObject.countAny - 1 } }
            fid.id m with
        | error f =>
          erw [henq] at h
          exact Except.noConfusion h
        | ok s2 =>
          erw [henq] at h
          simp only [] at h
          cases hdis : dispatch s2 fid.id fid.id s2.CurrentTime s2.CurrentTime with
          | error f =>
            rw [hdis] at h
            exact Except.noConfusion h
          | ok s3 =>
            rw [hdis] at h
            simp only [] at h
            have h1 := enqueue_frame _ s2 fid.id m henq
            have h2 := dispatch_frame s2 s3 _ _ _ _ hdis
            have h3 := ih s3 s1 h
            have h1a : SameTables s s2 := h1
            exact sameTables_trans s s3 s1 (sameTables_trans s s2 s3 h1a h2) h3

theorem valueLoop_frame (newTime : Time) (handles : List handle_id_t) :
    ∀ s s1 : MessageFederateManager,
    valueLoop newTime handles s = Except.ok s1 → SameTables s s1 := by
  induction handles with
  | nil =>
    intro s s1 h
    simp only [valueLoop, Except.ok.injEq] at h
    rw [← h]
    exact sameTables_refl s
  | cons handle handles ih =>
    intro s s1 h
    cases hl : s.subHandleLookup.lookup handle with
    | none =>
      simp only [valueLoop, hl] at h
      exact ih s s1 h
    | some sfnd =>
      simp only [valueLoop, hl] at h
      cases hx : index s.local_endpoints.dataStorage sfnd.1 with
      | error f =>
        rw [hx] at h
        exact Except.noConfusion h
      | ok e =>
        rw [hx] at h
        simp only [] at h
        cases henq : enqueue s sfnd.1
            { source := sfnd.2, dest := e.name, original_source := sfnd.2,
              data := s.coreObject.getValue handle, time := s.CurrentTime } with
        | error f =>
          rw [henq] at h
          exact Except.noConfusion h
        | ok s2 =>
          rw [henq] at h
          simp only [] at h
          cases hdis : dispatch s2 sfnd.1 sfnd.1 newTime s2.CurrentTime with
          | error f =>
            rw [hdis] at h
            exact Except.noConfusion h
          | ok s3 =>
            rw [hdis] at h
            simp only [] at h
            have h1 := enqueue_frame s s2 _ _ henq
            have h2 := dispatch_frame s2 s3 _ _ _ _ hdis
            have h3 := ih s3 s1 h
            exact sameTables_trans s s3 s1 (sameTables_trans s s2 s3 h1 h2) h3

/-- Whenever `updateTime` returns, the endpoint table, the callbacks and the
subscription links are as before. -/
theorem updateTime_frame (s s1 : MessageFederateManager) (newTime oldTime : Time)
    (h : updateTime s newTime oldTime = Except.ok s1) : SameTables s s1 := by
  unfold updateTime at h
  simp only [] at h
  cases hd : drainLoop (Core.receiveCountAny s.coreObject s.fedID)
      { s with CurrentTime := newTime } with
  | error f =>
    erw [hd] at h
    exact Except.noConfusion h
  | ok sA =>
    erw [hd] at h
    simp only [] at h
    have h1 : SameTables s sA := drainLoop_frame _ { s with CurrentTime := newTime } sA hd
    by_cases hsub : sA.hasSubscriptions = true
    · rw [if_pos hsub] at h
      exact sameTables_trans s sA s1 h1 (valueLoop_frame _ _ sA s1 h)
    · rw [if_neg hsub] at h
      injection h with h
      rw [← h]
      exact h1

theorem consistent_of_sameTables (s s1 : MessageFederateManager) (hc : Consistent s)
    (h : SameTables s s1) : Consistent s1 := by
  obtain ⟨h1, h2, h3, h4, h5, h6⟩ := h
  unfold Consistent IdsDense CallbacksValid SubscriptionsValid at hc ⊢
  rw [h1, h2, h3, h4, h5, h6]
  exact hc

theorem size_setCallbackIndex (d : DualMappedVector) (i : Nat) (ind : Int) :
    (setCallbackIndex d i ind).size = d.size := by
  unfold setCallbackIndex
  cases h : d.dataStorage[i]? with
  | none => rfl
  | some e => simp [DualMappedVector.size]

theorem ids_setCallbackIndex (d : DualMappedVector) (i : Nat) (ind : Int) :
    (setCallbackIndex d i ind).dataStorage.map (fun e => e.id)
      = d.dataStorage.map (fun e => e.id) := by
  unfold setCallbackIndex
  cases h : d.dataStorage[i]? with
  | none => rfl
  | some e =>
    simp only [List.map_set]
    apply set_of_getElem?
    simp [List.getElem?_map, h]

theorem mem_setCallbackIndex (d : DualMappedVector) (i : Nat) (ind : Int) (x : endpoint_info)
    (hx : x ∈ (setCallbackIndex d i ind).dataStorage) :
    x ∈ d.dataStorage ∨ x.callbackIndex = ind := by
  unfold setCallbackIndex at hx
  cases h : d.dataStorage[i]? with
  | none =>
    rw [h] at hx
    exact Or.inl hx
  | some e =>
    rw [h] at hx
    rcases List.mem_or_eq_of_mem_set hx with hm | he
    · exact Or.inl hm
    · right
      rw [he]

theorem getElem?_setCallbackIndex (d : DualMappedVector) (i j : Nat) (ind : Int) :
    (setCallbackIndex d i ind).dataStorage[j]?
      = if j = i then (d.dataStorage[j]?).map (fun e => { e with callbackIndex := ind })
        else d.dataStorage[j]? := by
  unfold setCallbackIndex
  by_cases hji : j = i
  · subst hji
    cases h : d.dataStorage[j]? with
    | none => simp [h]
    | some e =>
      have hlt : j < d.dataStorage.length := by
        by_contra hc
        rw [List.getElem?_eq_none (Nat.le_of_not_lt hc)] at h
        exact Option.noConfusion h
      simp [List.getElem?_set, hlt]
  · cases h : d.dataStorage[i]? with
    | none => simp [hji]
    | some e =>
      simp only [List.getElem?_set, if_neg hji]
      rw [if_neg (fun hc => hji hc.symm)]

/-- The loop of `registerCallback (ids, callback)` (lines 317-323) over a table. -/
theorem foldl_setCallbackIndex (ind : Int) (ids : List endpoint_id_t) :
    ∀ d : DualMappedVector,
    (ids.foldl (fun d id => if id < d.size then setCallbackIndex d id ind else d) d).size
        = d.size ∧
    (ids.foldl (fun d id => if id < d.size then setCallbackIndex d id ind else d)
        d).dataStorage.map (fun e => e.id) = d.dataStorage.map (fun e => e.id) ∧
    (∀ x ∈ (ids.foldl (fun d id => if id < d.size then setCallbackIndex d id ind else d)
        d).dataStorage, x ∈ d.dataStorage ∨ x.callbackIndex = ind) ∧
    (∀ j, (ids.foldl (fun d id => if id < d.size then setCallbackIndex d id ind else d)
        d).dataStorage[j]?
      = if j ∈ ids then (d.dataStorage[j]?).map (fun e => { e with callbackIndex := ind })
        else d.dataStorage[j]?) := by
  induction ids with
  | nil =>
    intro d
    exact ⟨rfl, rfl, fun x hx => Or.inl hx, fun j => by simp⟩
  | cons id ids ih =>
    intro d
    simp only [List.foldl_cons]
    by_cases hid : id < d.size
    · rw [if_pos hid]
      obtain ⟨h1, h2, h3, h4⟩ := ih (setCallbackIndex d id ind)
      refine ⟨?_, ?_, ?_, ?_⟩
      · rw [h1, size_setCallbackIndex]
      · rw [h2, ids_setCallbackIndex]
      · intro x hx
        rcases h3 x hx with hm | he
        · exact mem_setCallbackIndex d id ind x hm
        · exact Or.inr he
      · intro j
        rw [h4 j, getElem?_setCallbackIndex]
        by_cases hji : j = id
        · subst hji
          simp only [List.mem_cons, true_or, if_true]
          by_cases hj : j ∈ ids
          · rw [if_pos hj]
            cases d.dataStorage[j]? with
            | none => rfl
            | some e => rfl
          · rw [if_neg hj]
        · simp only [List.mem_cons, hji, false_or, if_false]
    · rw [if_neg hid]
      obtain ⟨h1, h2, h3, h4⟩ := ih d
      refine ⟨h1, h2, h3, ?_⟩
      intro j
      rw [h4 j]
      by_cases hji : j = id
      · subst hji
        have hnone : d.dataStorage[j]? = none :=
          List.getElem?_eq_none (Nat.le_of_not_lt hid)
        simp only [List.mem_cons, true_or, if_true, hnone, Option.map_none', ite_self]
      · simp only [List.mem_cons, hji, false_or]

theorem consistent_registerCallback (s s1 : MessageFederateManager) (cb : Callback)
    (hc : Consistent s) (h : registerCallback s cb = Except.ok s1) : Consistent s1 := by
  obtain ⟨h1, h2, h3, h4, h5⟩ := hc
  unfold registerCallback at h
  by_cases hneg : s.allCallbackIndex < 0
  · rw [if_pos hneg] at h
    injection h with h
    rw [← h]
    refine ⟨h1, ⟨?_, ?_⟩, h3, h4, h5⟩
    · show (s.callbacks.length : Int) < ((s.callbacks ++ [cb]).length : Int)
      simp
    · intro e he
      have := h2.2 e he
      show e.callbackIndex < ((s.callbacks ++ [cb]).length : Int)
      simp only [List.length_append, List.length_singleton, Nat.cast_add, Nat.cast_one]
      omega
  · rw [if_neg hneg] at h
    by_cases hlt : s.allCallbackIndex.toNat < s.callbacks.length
    · rw [if_pos hlt] at h
      injection h with h
      rw [← h]
      refine ⟨h1, ⟨?_, ?_⟩, h3, h4, h5⟩
      · show s.allCallbackIndex < ((s.callbacks.set _ cb).length : Int)
        rw [List.length_set]
        exact h2.1
      · intro e he
        show e.callbackIndex < ((s.callbacks.set _ cb).length : Int)
        rw [List.length_set]
        exact h2.2 e he
    · rw [if_neg hlt] at h
      exact Except.noConfusion h

theorem consistent_registerCallback_id (s s1 : MessageFederateManager) (id : endpoint_id_t)
    (cb : Callback) (hc : Consistent s) (h : registerCallback_id s id cb = Except.ok s1) :
    Consistent s1 := by
  obtain ⟨h1, h2, h3, h4, h5⟩ := hc
  unfold registerCallback_id at h
  by_cases hid : id < s.local_endpoints.size
  · rw [if_pos hid] at h
    injection h with h
    rw [← h]
    refine ⟨?_, ⟨?_, ?_⟩, ?_, h4, ?_⟩
    · show (setCallbackIndex s.local_endpoints id _).dataStorage.map (fun e => e.id)
        = List.range (setCallbackIndex s.local_endpoints id _).size
      rw [ids_setCallbackIndex, size_setCallbackIndex]
      exact h1
    · show s.allCallbackIndex < ((s.callbacks ++ [cb]).length : Int)
      have := h2.1
      simp only [List.length_append, List.length_singleton, Nat.cast_add, Nat.cast_one]
      omega
    · intro e he
      show e.callbackIndex < ((s.callbacks ++ [cb]).length : Int)
      simp only [List.length_append, List.length_singleton, Nat.cast_add, Nat.cast_one]
      rcases mem_setCallbackIndex _ _ _ e he with hm | heq
      · have := h2.2 e hm
        omega
      · omega
    · intro p hp
      show p.2.1 < (setCallbackIndex s.local_endpoints id _).size
      rw [size_setCallbackIndex]
      exact h3 p hp
    · show s.messageQueues.length ≤ (setCallbackIndex s.local_endpoints id _).size
      rw [size_setCallbackIndex]
      exact h5
  · rw [if_neg hid] at h
    exact Except.noConfusion h

theorem consistent_registerCallback_ids (s : MessageFederateManager) (ids : List endpoint_id_t)
    (cb : Callback) (hc : Consistent s) : Consistent (registerCallback_ids s ids cb) := by
  obtain ⟨h1, h2, h3, h4, h5⟩ := hc
  obtain ⟨f1, f2, f3, -⟩ := foldl_setCallbackIndex (s.callbacks.length : Int) ids s.local_endpoints
  refine ⟨?_, ⟨?_, ?_⟩, ?_, h4, ?_⟩
  · show (List.foldl _ s.local_endpoints ids).dataStorage.map (fun e => e.id)
      = List.range (List.foldl _ s.local_endpoints ids).size
    rw [f1, f2]
    exact h1
  · show s.allCallbackIndex < ((s.callbacks ++ [cb]).length : Int)
    have := h2.1
    simp only [List.length_append, List.length_singleton, Nat.cast_add, Nat.cast_one]
    omega
  · intro e he
    show e.callbackIndex < ((s.callbacks ++ [cb]).length : Int)
    simp only [List.length_append, List.length_singleton, Nat.cast_add, Nat.cast_one]
    rcases f3 e he with hm | heq
    · have := h2.2 e hm
      omega
    · omega
  · intro p hp
    show p.2.1 < (List.foldl _ s.local_endpoints ids).size
    rw [f1]
    exact h3 p hp
  · show s.messageQueues.length ≤ (List.foldl _ s.local_endpoints ids).size
    rw [f1]
    exact h5

theorem registerKnownCommunicationPath_frame (s s1 : MessageFederateManager)
    (e : endpoint_id_t) (remote : String)
    (h : registerKnownCommunicationPath s e remote = Except.ok s1) : SameTables s s1 := by
  unfold registerKnownCommunicationPath at h
  by_cases he : e < s.local_endpoints.size
  · rw [if_pos he] at h
    cases hx : index s.local_endpoints.dataStorage e with
    | error f => rw [hx] at h; exact Except.noConfusion h
    | ok ep =>
      rw [hx] at h
      injection h with h
      rw [← h]
      exact sameTables_refl s
  · rw [if_neg he] at h
    injection h with h
    rw [← h]
    exact sameTables_refl s

theorem getMessage_id_frame (s s1 : MessageFederateManager) (e : endpoint_id_t)
    (r : Option Message) (h : getMessage_id s e = Except.ok (r, s1)) : SameTables s s1 := by
  unfold getMessage_id at h
  by_cases he : e < s.local_endpoints.size
  · rw [if_pos he] at h
    cases hx : index s.messageQueues e with
    | error f => rw [hx] at h; exact Except.noConfusion h
    | ok q =>
      rw [hx] at h
      cases q with
      | nil =>
        simp only [Except.ok.injEq, Prod.mk.injEq] at h
        rw [← h.2]
        exact sameTables_refl s
      | cons m rest =>
        simp only [Except.ok.injEq, Prod.mk.injEq] at h
        rw [← h.2]
        exact ⟨rfl, rfl, rfl, rfl, rfl, List.length_set _ _ _⟩
  · rw [if_neg he] at h
    simp only [Except.ok.injEq, Prod.mk.injEq] at h
    rw [← h.2]
    exact sameTables_refl s

theorem getMessage_frame (s : MessageFederateManager) : SameTables s (getMessage s).2 := by
  unfold getMessage
  cases hsc : getMessageScan s.messageQueues with
  | none => exact sameTables_refl s
  | some r =>
    obtain ⟨m, Q1⟩ := r
    obtain ⟨k, rest, -, -, hset, -⟩ := getMessageScan_some _ _ _ hsc
    refine ⟨rfl, rfl, rfl, rfl, rfl, ?_⟩
    show Q1.length = s.messageQueues.length
    rw [hset, List.length_set]

theorem sendMessage_frame (s s1 : MessageFederateManager) (e : endpoint_id_t)
    (dest data : String) (h : sendMessage s e dest data = Except.ok s1) : SameTables s s1 := by
  unfold sendMessage at h
  by_cases he : e < s.local_endpoints.size
  · rw [if_pos he] at h
    cases hx : index s.local_endpoints.dataStorage e with
    | error f => rw [hx] at h; exact Except.noConfusion h
    | ok ep =>
      rw [hx] at h
      injection h with h
      rw [← h]
      exact sameTables_refl s
  · rw [if_neg he] at h
    exact Except.noConfusion h

theorem sendMessage_time_frame (s s1 : MessageFederateManager) (e : endpoint_id_t)
    (dest data : String) (t : Time) (h : sendMessage_time s e dest data t = Except.ok s1) :
    SameTables s s1 := by
  unfold sendMessage_time at h
  by_cases he : e < s.local_endpoints.size
  · rw [if_pos he] at h
    cases hx : index s.local_endpoints.dataStorage e with
    | error f => rw [hx] at h; exact Except.noConfusion h
    | ok ep =>
      rw [hx] at h
      injection h with h
      rw [← h]
      exact sameTables_refl s
  · rw [if_neg he] at h
    exact Except.noConfusion h

theorem sendMessage_message_frame (s s1 : MessageFederateManager) (e : endpoint_id_t)
    (m : Message) (h : sendMessage_message s e m = Except.ok s1) : SameTables s s1 := by
  unfold sendMessage_message at h
  by_cases he : e < s.local_endpoints.size
  · rw [if_pos he] at h
    cases hx : index s.local_endpoints.dataStorage e with
    | error f => rw [hx] at h; exact Except.noConfusion h
    | ok ep =>
      rw [hx] at h
      injection h with h
      rw [← h]
      exact sameTables_refl s
  · rw [if_neg he] at h
    exact Except.noConfusion h

theorem removeOrderedMessage_frame (s s1 : MessageFederateManager) (index : Nat)
    (h : removeOrderedMessage s index = Except.ok s1) : SameTables s s1 := by
  unfold removeOrderedMessage at h
  cases hl : s.messageOrder.getLast? with
  | none => rw [hl] at h; exact Except.noConfusion h
  | some back =>
    rw [hl] at h
    simp only [] at h
    by_cases hb : index = back
    · rw [if_pos hb] at h
      injection h with h
      rw [← h]
      exact sameTables_refl s
    · rw [if_neg hb] at h
      cases hr : reverseScan s.messageOrder index (s.messageOrder.length - 1) with
      | none =>
        rw [hr] at h
        injection h with h
        rw [← h]
        exact sameTables_refl s
      | some j =>
        rw [hr] at h
        injection h with h
        rw [← h]
        exact sameTables_refl s

theorem consistent_subscribe (s s1 : MessageFederateManager) (e : endpoint_id_t)
    (name type : String) (hc : Consistent s) (h : subscribe s e name type = Except.ok s1) :
    Consistent s1 := by
  obtain ⟨h1, h2, h3, h4, h5⟩ := hc
  unfold subscribe at h
  by_cases he : e < s.local_endpoints.size
  · rw [if_pos he] at h
    injection h with h
    rw [← h]
    refine ⟨h1, h2, ?_, fun _ => rfl, h5⟩
    intro p hp
    rcases mem_mapEmplace _ _ _ p hp with hm | heq
    · exact h3 p hm
    · rw [heq]
      exact he
  · rw [if_neg he] at h
    exact Except.noConfusion h

theorem consistent_registerEndpoint (s : MessageFederateManager) (name type : String)
    (hc : Consistent s) : Consistent (registerEndpoint s name type).2 := by
  obtain ⟨h1, h2, h3, h4, h5⟩ := hc
  refine ⟨idsDense_registerEndpoint s name type h1, callbacksValid_registerEndpoint s name type h2,
    subscriptionsValid_registerEndpoint s name type h3, h4, ?_⟩
  show s.messageQueues.length ≤ (s.local_endpoints.insert name _ type _).size
  rw [size_insert]
  exact Nat.le_succ_of_le h5

theorem consistent_startup (s : MessageFederateManager) (hc : Consistent s) :
    Consistent (startupToInitializeStateTransition s) := by
  obtain ⟨h1, h2, h3, h4, -⟩ := hc
  refine ⟨h1, h2, h3, h4, ?_⟩
  show (resize s.messageQueues s.local_endpoints.size).length ≤ s.local_endpoints.size
  rw [length_resize]

/-- Every reachable manager state is consistent. -/
theorem reachable_consistent (s : MessageFederateManager) (hr : Reachable s) : Consistent s := by
  induction hr with
  | new coreOb id =>
    exact ⟨rfl, ⟨show (-1 : Int) < ((([] : List Callback).length : Nat) : Int) by decide,
        fun e he => by simp [MessageFederateManager.new] at he⟩,
      fun p hp => by simp [MessageFederateManager.new] at hp,
      fun h => absurd rfl h, Nat.le_refl _⟩
  | coreStep s c _ ih => exact ih
  | registerEndpoint s name type _ ih => exact consistent_registerEndpoint s name type ih
  | registerKnownCommunicationPath s s1 e remote _ h ih =>
    exact consistent_of_sameTables s s1 ih (registerKnownCommunicationPath_frame s s1 e remote h)
  | subscribe s s1 e name type _ h ih => exact consistent_subscribe s s1 e name type ih h
  | getMessage_id s s1 e r _ h ih =>
    exact consistent_of_sameTables s s1 ih (getMessage_id_frame s s1 e r h)
  | getMessage s _ ih => exact consistent_of_sameTables s _ ih (getMessage_frame s)
  | sendMessage s s1 e dest data _ h ih =>
    exact consistent_of_sameTables s s1 ih (sendMessage_frame s s1 e dest data h)
  | sendMessage_time s s1 e dest data t _ h ih =>
    exact consistent_of_sameTables s s1 ih (sendMessage_time_frame s s1 e dest data t h)
  | sendMessage_message s s1 e m _ h ih =>
    exact consistent_of_sameTables s s1 ih (sendMessage_message_frame s s1 e m h)
  | updateTime s s1 newTime oldTime _ h ih =>
    exact consistent_of_sameTables s s1 ih (updateTime_frame s s1 newTime oldTime h)
  | startupToInitializeStateTransition s _ ih => exact consistent_startup s ih
  | registerCallback s s1 cb _ h ih => exact consistent_registerCallback s s1 cb ih h
  | registerCallback_id s s1 e cb _ h ih => exact consistent_registerCallback_id s s1 e cb ih h
  | registerCallback_ids s ids cb _ ih => exact consistent_registerCallback_ids s ids cb ih
  | removeOrderedMessage s s1 index _ h ih =>
    exact consistent_of_sameTables s s1 ih (removeOrderedMessage_frame s s1 index h)

theorem indicesValid_of_callbacksValid (s : MessageFederateManager) (h : CallbacksValid s) :
    IndicesValid s := by
  unfold IndicesValid CallbackIndexValid
  refine ⟨?_, ?_⟩
  · have := h.1
    omega
  · intro e he
    have := h.2 e he
    omega

theorem foldl_setCallbackIndex_filter (ind : Int) (ids : List endpoint_id_t) :
    ∀ d : DualMappedVector,
    ids.foldl (fun d id => if id < d.size then setCallbackIndex d id ind else d) d
      = (ids.filter (fun id => decide (id < d.size))).foldl
          (fun d id => if id < d.size then setCallbackIndex d id ind else d) d := by
  induction ids with
  | nil => intro d; rfl
  | cons id ids ih =>
    intro d
    by_cases hid : id < d.size
    · simp only [List.foldl_cons, if_pos hid, List.filter_cons, decide_eq_true hid, if_true]
      rw [ih (setCallbackIndex d id ind), size_setCallbackIndex]
    · simp only [List.foldl_cons, if_neg hid, List.filter_cons, decide_eq_false hid]
      exact ih d

/-- C19: callback-index validity is an invariant of the three
`registerCallback` overloads. In every reachable state the all-endpoints
callback index and every endpoint's callback index is negative or a valid index
into the callbacks list, and so it is after each overload. Registering the
all-endpoints callback returns normally; when one is registered already its
entry is replaced in place, the list length and the endpoint table (so every
endpoint's index) unchanged; the first registration appends the entry.
`registerCallback (id, cb)` with `id` below the endpoint count appends one
entry and points `id` at it, other endpoints unchanged; with `id` at or above
the endpoint count it raises `invalid_argument` (no state results).
`registerCallback (ids, cb)` appends exactly one entry, points every listed id
below the endpoint count at it, leaves unlisted endpoints unchanged and ignores
the other ids: the result is the same as for the list without them. -/
theorem registerCallback_indices_valid (s : MessageFederateManager) (callback : Callback)
    (id : endpoint_id_t) (ids : List endpoint_id_t) (hr : Reachable s) :
    IndicesValid s ∧
    (∃ s1, registerCallback s callback = Except.ok s1 ∧ IndicesValid s1 ∧
      (0 ≤ s.allCallbackIndex →
        s1 = { s with callbacks := s.callbacks.set s.allCallbackIndex.toNat callback } ∧
        s1.callbacks.length = s.callbacks.length ∧
        s1.callbacks[s.allCallbackIndex.toNat]? = some callback ∧
        s1.local_endpoints = s.local_endpoints) ∧
      (s.allCallbackIndex < 0 →
        s1 = { s with allCallbackIndex := (s.callbacks.length : Int),
                      callbacks := s.callbacks ++ [callback] })) ∧
    (id < s.local_endpoints.size →
      ∃ s1 ep, registerCallback_id s id callback = Except.ok s1 ∧ IndicesValid s1 ∧
        s1.callbacks = s.callbacks ++ [callback] ∧
        s.local_endpoints.dataStorage[id]? = some ep ∧
        s1.local_endpoints.dataStorage[id]?
          = some { ep with callbackIndex := (s.callbacks.length : Int) } ∧
        ∀ j, j ≠ id → s1.local_endpoints.dataStorage[j]? = s.local_endpoints.dataStorage[j]?) ∧
    (s.local_endpoints.size ≤ id →
      registerCallback_id s id callback
        = Except.error (Fault.invalid_argument "endpoint id is invalid")) ∧
    (IndicesValid (registerCallback_ids s ids callback) ∧
      (registerCallback_ids s ids callback).callbacks = s.callbacks ++ [callback] ∧
      (∀ j ep, j ∈ ids → s.local_endpoints.dataStorage[j]? = some ep →
        (registerCallback_ids s ids callback).local_endpoints.dataStorage[j]?
          = some { ep with callbackIndex := (s.callbacks.length : Int) }) ∧
      (∀ j, j ∉ ids →
        (registerCallback_ids s ids callback).local_endpoints.dataStorage[j]?
          = s.local_endpoints.dataStorage[j]?) ∧
      registerCallback_ids s ids callback
        = registerCallback_ids s (ids.filter (fun j => decide (j < s.local_endpoints.size)))
            callback) := by
  have hc := reachable_consistent s hr
  have hv := hc.2.1
  refine ⟨indicesValid_of_callbacksValid s hv, ?_, ?_, ?_, ?_⟩
  · by_cases hneg : s.allCallbackIndex < 0
    · have hrun : registerCallback s callback = Except.ok
          { s with allCallbackIndex := (s.callbacks.length : Int),
                   callbacks := s.callbacks ++ [callback] } := by
        simp only [registerCallback]
        rw [if_pos hneg]
      refine ⟨_, hrun, ?_, ?_, fun _ => rfl⟩
      · exact indicesValid_of_callbacksValid _ (consistent_registerCallback s _ callback hc hrun).2.1
      · intro h0
        omega
    · have hlt : s.allCallbackIndex.toNat < s.callbacks.length := by
        have := hv.1
        omega
      have hrun : registerCallback s callback = Except.ok
          { s with callbacks := s.callbacks.set s.allCallbackIndex.toNat callback } := by
        simp only [registerCallback]
        rw [if_neg hneg, if_pos hlt]
      refine ⟨_, hrun, ?_, ?_, fun h => absurd h hneg⟩
      · exact indicesValid_of_callbacksValid _ (consistent_registerCallback s _ callback hc hrun).2.1
      · intro _
        refine ⟨rfl, ?_, ?_, rfl⟩
        · exact List.length_set _ _ _
        · show (s.callbacks.set s.allCallbackIndex.toNat callback)[s.allCallbackIndex.toNat]?
            = some callback
          simp [List.getElem?_set, hlt]
  · intro hid
    obtain ⟨ep, hep⟩ := exists_getElem?_of_lt s.local_endpoints.dataStorage id hid
    have hrun : registerCallback_id s id callback = Except.ok
        { s with local_endpoints :=
                   setCallbackIndex s.local_endpoints id (s.callbacks.length : Int),
                 callbacks := s.callbacks ++ [callback] } := by
      simp only [registerCallback_id]
      rw [if_pos hid]
    refine ⟨_, ep, hrun, ?_, rfl, hep, ?_, ?_⟩
    · exact indicesValid_of_callbacksValid _
        (consistent_registerCallback_id s _ id callback hc hrun).2.1
    · show (setCallbackIndex s.local_endpoints id _).dataStorage[id]? = _
      rw [getElem?_setCallbackIndex, if_pos rfl, hep]
      rfl
    · intro j hj
      show (setCallbackIndex s.local_endpoints id _).dataStorage[j]? = _
      rw [getElem?_setCallbackIndex, if_neg hj]
  · intro hid
    simp only [registerCallback_id]
    rw [if_neg (Nat.not_lt.mpr hid)]
  · obtain ⟨-, -, -, f4⟩ :=
      foldl_setCallbackIndex (s.callbacks.length : Int) ids s.local_endpoints
    refine ⟨?_, rfl, ?_, ?_, ?_⟩
    · exact indicesValid_of_callbacksValid _ (consistent_registerCallback_ids s ids callback hc).2.1
    · intro j ep hj hep
      show (List.foldl _ s.local_endpoints ids).dataStorage[j]? = _
      rw [f4 j, if_pos hj, hep]
      rfl
    · intro j hj
      show (List.foldl _ s.local_endpoints ids).dataStorage[j]? = _
      rw [f4 j, if_neg hj]
    · simp only [registerCallback_ids]
      rw [foldl_setCallbackIndex_filter]

/-- Witness of C19: on the initialized example manager (one endpoint, no
callbacks yet), registering callback 50 for the ids 0 and 5 points endpoint 0
at the new entry and ignores 5. -/
theorem registerCallback_indices_valid_witness :
    IndicesValid readyManager ∧
    (registerCallback_ids readyManager [0, 5] 50).callbacks = [50] ∧
    (registerCallback_ids readyManager [0, 5] 50).local_endpoints.dataStorage[0]?
      = some ⟨"ep", "t", 0, 7, 0⟩ ∧
    registerCallback_ids readyManager [0, 5] 50 = registerCallback_ids readyManager [0] 50 ∧
    registerCallback_id readyManager 5 50
      = Except.error (Fault.invalid_argument "endpoint id is invalid") := by
  have h := registerCallback_indices_valid readyManager 50 5 [0, 5]
    (Reachable.startupToInitializeStateTransition _
      (Reachable.registerEndpoint _ "ep" "t" (Reachable.new exampleCore 1)))
  obtain ⟨h1, -, -, h4, -, h6, h7, -, h9⟩ := h
  exact ⟨h1, h6, h7 0 ⟨"ep", "t", 0, 7, -1⟩ (by decide) (by decide), h9, h4 (by decide)⟩

/-! ### Queue indexing after the transition -/

theorem queuesReady_of_sameTables (s s1 : MessageFederateManager) (hq : QueuesReady s)
    (h : SameTables s s1) : QueuesReady s1 := by
  obtain ⟨h1, -, -, -, -, h6⟩ := h
  unfold QueuesReady at hq ⊢
  rw [h1, h6]
  exact hq

/-- A state in which the transition has run after the last `registerEndpoint`
is reachable and has one queue per endpoint. -/
theorem started_ready (t : MessageFederateManager) (ht : Started t) :
    Reachable t ∧ QueuesReady t := by
  induction ht with
  | startupToInitializeStateTransition s hr =>
    exact ⟨Reachable.startupToInitializeStateTransition s hr, length_resize _ _⟩
  | coreStep s c _ ih => exact ⟨Reachable.coreStep s c ih.1, ih.2⟩
  | registerKnownCommunicationPath s s1 e remote _ h ih =>
    exact ⟨Reachable.registerKnownCommunicationPath s s1 e remote ih.1 h,
      queuesReady_of_sameTables s s1 ih.2 (registerKnownCommunicationPath_frame s s1 e remote h)⟩
  | subscribe s s1 e name type _ h ih =>
    refine ⟨Reachable.subscribe s s1 e name type ih.1 h, ?_⟩
    unfold helics.subscribe at h
    by_cases he : e < s.local_endpoints.size
    · rw [if_pos he] at h
      injection h with h
      rw [← h]
      exact ih.2
    · rw [if_neg he] at h
      exact Except.noConfusion h
  | getMessage_id s s1 e r _ h ih =>
    exact ⟨Reachable.getMessage_id s s1 e r ih.1 h,
      queuesReady_of_sameTables s s1 ih.2 (getMessage_id_frame s s1 e r h)⟩
  | getMessage s _ ih =>
    exact ⟨Reachable.getMessage s ih.1, queuesReady_of_sameTables s _ ih.2 (getMessage_frame s)⟩
  | sendMessage s s1 e dest data _ h ih =>
    exact ⟨Reachable.sendMessage s s1 e dest data ih.1 h,
      queuesReady_of_sameTables s s1 ih.2 (sendMessage_frame s s1 e dest data h)⟩
  | sendMessage_time s s1 e dest data t _ h ih =>
    exact ⟨Reachable.sendMessage_time s s1 e dest data t ih.1 h,
      queuesReady_of_sameTables s s1 ih.2 (sendMessage_time_frame s s1 e dest data t h)⟩
  | sendMessage_message s s1 e m _ h ih =>
    exact ⟨Reachable.sendMessage_message s s1 e m ih.1 h,
      queuesReady_of_sameTables s s1 ih.2 (sendMessage_message_frame s s1 e m h)⟩
  | updateTime s s1 newTime oldTime _ h ih =>
    exact ⟨Reachable.updateTime s s1 newTime oldTime ih.1 h,
      queuesReady_of_sameTables s s1 ih.2 (updateTime_frame s s1 newTime oldTime h)⟩
  | registerCallback s s1 cb _ h ih =>
    refine ⟨Reachable.registerCallback s s1 cb ih.1 h, ?_⟩
    unfold helics.registerCallback at h
    by_cases hneg : s.allCallbackIndex < 0
    · rw [if_pos hneg] at h
      injection h with h
      rw [← h]
      exact ih.2
    · rw [if_neg hneg] at h
      by_cases hlt : s.allCallbackIndex.toNat < s.callbacks.length
      · rw [if_pos hlt] at h
        injection h with h
        rw [← h]
        exact ih.2
      · rw [if_neg hlt] at h
        exact Except.noConfusion h
  | registerCallback_id s s1 e cb _ h ih =>
    refine ⟨Reachable.registerCallback_id s s1 e cb ih.1 h, ?_⟩
    unfold helics.registerCallback_id at h
    by_cases he : e < s.local_endpoints.size
    · rw [if_pos he] at h
      injection h with h
      rw [← h]
      show s.messageQueues.length = (setCallbackIndex s.local_endpoints e _).size
      rw [size_setCallbackIndex]
      exact ih.2
    · rw [if_neg he] at h
      exact Except.noConfusion h
  | registerCallback_ids s ids cb _ ih =>
    refine ⟨Reachable.registerCallback_ids s ids cb ih.1, ?_⟩
    show s.messageQueues.length = (List.foldl _ s.local_endpoints ids).size
    rw [(foldl_setCallbackIndex _ ids s.local_endpoints).1]
    exact ih.2
  | removeOrderedMessage s s1 index _ h ih =>
    exact ⟨Reachable.removeOrderedMessage s s1 index ih.1 h,
      queuesReady_of_sameTables s s1 ih.2 (removeOrderedMessage_frame s s1 index h)⟩

/-- C16: safety of queue indexing. The transition out of a reachable state `s`
leaves as many inbound queues as endpoints, keeps every queue that existed with
its content and creates the missing ones empty. In every state `t` in which the
transition has run after the last `registerEndpoint` the number of queues
equals the number of endpoints, and `hasMessage (id)`, `receiveCount (id)` and
`getMessage (id)` for every id, and `updateTime` on whatever the core holds,
return normally: none of them indexes a queue that does not exist. -/
theorem started_queue_indexing_safe (s t : MessageFederateManager) (id : endpoint_id_t)
    (newTime oldTime : Time) (hs : Reachable s) (ht : Started t) :
    (QueuesReady (startupToInitializeStateTransition s) ∧
      (∀ (i : Nat) (q : List Message), s.messageQueues[i]? = some q →
        (startupToInitializeStateTransition s).messageQueues[i]? = some q) ∧
      (∀ i : Nat, s.messageQueues.length ≤ i → i < s.local_endpoints.size →
        (startupToInitializeStateTransition s).messageQueues[i]? = some [])) ∧
    QueuesReady t ∧
    (∃ b, hasMessage_id t id = Except.ok b) ∧
    (∃ n, receiveCount_id t id = Except.ok n) ∧
    (∃ r t1, getMessage_id t id = Except.ok (r, t1) ∧ QueuesReady t1) ∧
    (∃ t1, updateTime t newTime oldTime = Except.ok t1 ∧ QueuesReady t1) := by
  have hcs := reachable_consistent s hs
  obtain ⟨htr, htq⟩ := started_ready t ht
  have hct := reachable_consistent t htr
  have hinit : Initialized t := ⟨hct.1, htq, hct.2.1, hct.2.2.1⟩
  refine ⟨⟨length_resize _ _, ?_, ?_⟩, htq, ?_, ?_, ?_, ?_⟩
  · intro i q hq
    have hlt : i < s.messageQueues.length := by
      by_contra hc
      rw [List.getElem?_eq_none (Nat.le_of_not_lt hc)] at hq
      exact Option.noConfusion hq
    show (resize s.messageQueues s.local_endpoints.size)[i]? = some q
    rw [getElem?_resize_old _ _ _ hlt (Nat.lt_of_lt_of_le hlt hcs.2.2.2.2), hq]
  · intro i h1 h2
    exact getElem?_resize_new _ _ _ h1 h2
  · unfold hasMessage_id
    by_cases hid : id < t.local_endpoints.size
    · obtain ⟨q, hq⟩ := exists_getElem?_of_lt t.messageQueues id (by rw [htq]; exact hid)
      rw [if_pos hid, index_of_getElem? _ _ _ hq]
      exact ⟨!q.isEmpty, rfl⟩
    · rw [if_neg hid]
      exact ⟨false, rfl⟩
  · unfold receiveCount_id
    by_cases hid : id < t.local_endpoints.size
    · obtain ⟨q, hq⟩ := exists_getElem?_of_lt t.messageQueues id (by rw [htq]; exact hid)
      rw [if_pos hid, index_of_getElem? _ _ _ hq]
      exact ⟨q.length, rfl⟩
    · rw [if_neg hid]
      exact ⟨0, rfl⟩
  · have hex : ∃ r t1, getMessage_id t id = Except.ok (r, t1) := by
      unfold getMessage_id
      by_cases hid : id < t.local_endpoints.size
      · obtain ⟨q, hq⟩ := exists_getElem?_of_lt t.messageQueues id (by rw [htq]; exact hid)
        rw [if_pos hid, index_of_getElem? _ _ _ hq]
        cases q with
        | nil => exact ⟨_, _, rfl⟩
        | cons m rest => exact ⟨_, _, rfl⟩
      · rw [if_neg hid]
        exact ⟨_, _, rfl⟩
    obtain ⟨r, t1, hrun⟩ := hex
    exact ⟨r, t1, hrun, queuesReady_of_sameTables t t1 htq (getMessage_id_frame t t1 id r hrun)⟩
  · obtain ⟨Q, L, hrun, -, -⟩ := updateTime_spec t newTime oldTime hinit
    exact ⟨_, hrun, queuesReady_of_sameTables t _ htq (updateTime_frame t _ newTime oldTime hrun)⟩

/-- Witness of C16: the example manager with one endpoint before the
transition, and after it with a message pending in the core. -/
theorem started_queue_indexing_safe_witness :
    QueuesReady startedManager ∧
    (∃ b, hasMessage_id startedManager 0 = Except.ok b) ∧
    (∃ t1, updateTime startedManager 2 0 = Except.ok t1 ∧ QueuesReady t1) := by
  have h := started_queue_indexing_safe (registerEndpoint exampleManager "ep" "t").2
    startedManager 0 2 0
    (Reachable.registerEndpoint _ "ep" "t" (Reachable.new exampleCore 1))
    (Started.coreStep _ _ (Started.startupToInitializeStateTransition _
      (Reachable.registerEndpoint _ "ep" "t" (Reachable.new exampleCore 1))))
  exact ⟨h.2.1, h.2.2.1, h.2.2.2.2.2⟩

end helics
